import Mathlib

/-!
Empire: deploy orchestration and Heroku error mapping

A shallow embedding of

* `server/heroku/errors.go`: `ErrorResource`, the named error resources and `newError`;
* `empire/deployments.go`: `DeploymentsDo`, `DeployImageToApp`, `DeployImage`.

A `*ErrorResource` is an `Option ErrorResource`, `none` being the nil pointer.  The handles
`*App`, `*Config`, `*Slug` and `*Release` of the deployer are modelled by the value they point
to.  A Go `error` is a value of `GoError`, whose constructor is the dynamic type of the
interface value; the nil interface is `Option.none` wherever a nil error can occur.
-/

namespace Heroku

/-- ErrorResource represents the error response format that we return. -/
structure ErrorResource where
  Status : Int
  ID : String
  Message : String
  URL : String
  deriving DecidableEq, Repr

/-- A non-nil Go `error` value, by dynamic type: the sentinel `gorm.RecordNotFound` (compared
by identity in the source, so it is a constructor of its own), a `*ErrorResource` (the pointer
held by the interface value may be nil: `none`), a `*empire.MessageRequiredError`, a
`*empire.ValidationError`, or a value of any other dynamic type.  For the three types declared
outside this file only the text that `Error()` returns is kept. -/
inductive GoError where
  | RecordNotFound
  | ErrorResource (p : Option ErrorResource)
  | MessageRequiredError (msg : String)
  | ValidationError (msg : String)
  | other (msg : String)
  deriving DecidableEq, Repr

/-- The constant `http.StatusBadRequest`. -/
def StatusBadRequest : Int := 400
/-- The constant `http.StatusUnauthorized`. -/
def StatusUnauthorized : Int := 401
/-- The constant `http.StatusForbidden`. -/
def StatusForbidden : Int := 403
/-- The constant `http.StatusNotFound`. -/
def StatusNotFound : Int := 404

def ErrBadRequest : ErrorResource :=
  { Status := StatusBadRequest
    ID := "bad_request"
    Message := "Request invalid, validate usage and try again"
    URL := "" }

def ErrUnauthorized : ErrorResource :=
  { Status := StatusUnauthorized
    ID := "unauthorized"
    Message := "Request not authenticated, API token is missing, invalid or expired"
    URL := "" }

def ErrForbidden : ErrorResource :=
  { Status := StatusForbidden
    ID := "forbidden"
    Message := "Request not authorized, provided credentials do not provide access to "
      ++ "specified resource"
    URL := "" }

def ErrNotFound : ErrorResource :=
  { Status := StatusNotFound
    ID := "not_found"
    Message := "Request failed, the specified resource does not exist"
    URL := "" }

def ErrTwoFactor : ErrorResource :=
  { Status := StatusUnauthorized
    ID := "two_factor"
    Message := "Two factor code is required."
    URL := "" }

def ErrSSLRemoved : ErrorResource :=
  { Status := StatusNotFound
    ID := "not_found"
    Message := "Support for uploading SSL certificates through Empire has been removed and "
      ++ "replaced with certificate attachments."
    URL := "http://empire.readthedocs.org/en/latest/ssl_certs/" }

/-- The resource `ErrMessageRequired`; `commitMessageHeader` stands for the constant
`heroku.CommitMessageHeader`, which is declared in another package. -/
def ErrMessageRequired (commitMessageHeader : String) : ErrorResource :=
  { Status := StatusBadRequest
    ID := "message_required"
    Message := "Header \x27" ++ commitMessageHeader ++ "\x27 is required"
    URL := "" }

/-- Error implements error interface. -/
def ErrorResource.Error (e : ErrorResource) : String := e.Message

/-- The method `Error()` of a Go error value; `none` where the call dereferences a nil
`*ErrorResource`. -/
def GoError.Error : GoError → Option String
  | .RecordNotFound => some "record not found"
  | .ErrorResource p => p.map ErrorResource.Error
  | .MessageRequiredError msg => some msg
  | .ValidationError msg => some msg
  | .other msg => some msg

/-- The function `newError`: the comparison with `gorm.RecordNotFound` first, then the type
switch on the dynamic type of the error.  The result is the `*ErrorResource` returned, `none`
being the nil pointer.  The default case is reached by the other dynamic types only, whose
`Error()` returns their text. -/
def newError (commitMessageHeader : String) (err : GoError) : Option ErrorResource :=
  if err = GoError.RecordNotFound then some ErrNotFound
  else
    match err with
    | .ErrorResource p => p
    | .MessageRequiredError _ => some (ErrMessageRequired commitMessageHeader)
    | .ValidationError _ => some ErrBadRequest
    | e => e.Error.map (fun msg => { Status := 0, ID := "", Message := msg, URL := "" })

end Heroku

namespace Empire

open Heroku (GoError)

/-- Modelled from the spec: the `*App` handle of an Application (the type is declared outside
the deployer's file); an application is identified by its unique name, and the record the handle
points to (its repository linkage) lives in the store. -/
structure App where
  Name : String
  deriving DecidableEq, Repr

/-- Modelled from the spec: the image reference (the type is declared outside the deployer's
file).  The deployer reads the field `Repo` and calls `String()`; whatever else identifies the
image (tag or digest) is kept in `ID`. -/
structure Image where
  Repo : String
  ID : String
  deriving DecidableEq, Repr

/-- Modelled from the spec: a `*Config`, an immutable versioned environment of one application
(the type is declared outside the deployer's file). -/
structure Config where
  ID : String
  Vars : List (String × String)
  deriving DecidableEq, Repr

/-- Modelled from the spec: a `*Slug`, the immutable artifact built from an image (the type is
declared outside the deployer's file). -/
structure Slug where
  ID : String
  Image : Image
  deriving DecidableEq, Repr

/-- Modelled from the spec: the `Release` record (the type is declared outside the deployer's
file): application, config, slug, description, version number and status.  A Go composite
literal leaves the fields it does not name at their zero value (`0`, `""`). -/
structure Release where
  App : App
  Config : Config
  Slug : Slug
  Description : String
  Version : Nat
  Status : String
  deriving DecidableEq, Repr

/-- Deployment statuses. -/
def StatusPending : String := "pending"
def StatusFailed : String := "failed"
def StatusSuccess : String := "success"

/-- The `context.Context` handed to the deployer, reduced to whether it is already cancelled
(`ctx.Err() != nil`). -/
structure Context where
  cancelled : Bool
  deriving DecidableEq, Repr

/-- A `chan Event`, by identity. -/
structure EventCh where
  id : Nat
  deriving DecidableEq, Repr

/-- DeploymentsCreateOpts represents options that can be passed when creating a new
Deployment. -/
structure DeploymentsCreateOpts where
  App : App
  Image : Image
  EventCh : EventCh
  deriving DecidableEq, Repr

/-- Modelled from the spec: the durable store, "the only shared mutable resource": the
application records with their repository linkage, and the Config, Slug, Release and Formation
tables (the persistence layer is outside the deployer's file). -/
structure Store where
  apps : List (App × Option String)
  configs : List (App × Config)
  slugs : List Slug
  releases : List Release
  formations : List (App × String × Nat)
  deriving DecidableEq, Repr

/-- One call of a collaborator of the deployer, with its arguments. -/
inductive Call where
  | AppsFindOrCreateByRepo (repo : String)
  | AppsEnsureRepo (app : App) (repo : String)
  | ConfigsCurrent (app : App)
  | SlugsCreateByImage (image : Image) (eventCh : EventCh)
  | ReleasesCreate (ctx : Context) (release : Release)
  deriving DecidableEq, Repr

/-- A collaborator call together with the error it returned (`none` for a nil error). -/
structure Invocation where
  call : Call
  err : Option GoError
  deriving DecidableEq, Repr

/-- The state a deploy runs in: the store, and the log of the collaborator calls made so far,
oldest first.  The log is ghost state: no collaborator reads it. -/
structure World where
  store : Store
  trace : List Invocation
  deriving DecidableEq, Repr

/-- The services embedded in `deployer` (`*appsService`, `*configsService`, `*slugsService`,
`*releasesService`), whose methods are declared outside the deployer's file: each is an
arbitrary function of its arguments and the store, returning its Go results and the new store.
A `(value, error)` result whose value the deployer reads only when the error is nil is an
`Except`; the result of `ReleasesCreate`, which the deployer returns as it is, is the pair.
`ImageString` is the method `Image.String()`. -/
structure Services where
  ImageString : Image → String
  AppsFindOrCreateByRepo : String → Store → Except GoError App × Store
  AppsEnsureRepo : App → String → Store → Option GoError × Store
  ConfigsCurrent : App → Store → Except GoError Config × Store
  SlugsCreateByImage : Image → EventCh → Store → Except GoError Slug × Store
  ReleasesCreate : Context → Release → Store → (Option Release × Option GoError) × Store

/-- The error of a `(value, error)` result. -/
def errOf {α : Type} : Except GoError α → Option GoError
  | .error e => some e
  | .ok _ => none

/-- The world after a collaborator call that returned `err` and left the store `st`. -/
def World.record (w : World) (c : Call) (err : Option GoError) (st : Store) : World :=
  { store := st, trace := w.trace ++ [{ call := c, err := err }] }

/-- The call `s.appsService.AppsFindOrCreateByRepo(repo)`, logged. -/
def Services.callAppsFindOrCreateByRepo (s : Services) (repo : String) (w : World) :
    Except GoError App × World :=
  let r := s.AppsFindOrCreateByRepo repo w.store
  (r.1, w.record (.AppsFindOrCreateByRepo repo) (errOf r.1) r.2)

/-- The call `s.appsService.AppsEnsureRepo(app, repo)`, logged. -/
def Services.callAppsEnsureRepo (s : Services) (app : App) (repo : String) (w : World) :
    Option GoError × World :=
  let r := s.AppsEnsureRepo app repo w.store
  (r.1, w.record (.AppsEnsureRepo app repo) r.1 r.2)

/-- The call `s.ConfigsCurrent(app)`, logged. -/
def Services.callConfigsCurrent (s : Services) (app : App) (w : World) :
    Except GoError Config × World :=
  let r := s.ConfigsCurrent app w.store
  (r.1, w.record (.ConfigsCurrent app) (errOf r.1) r.2)

/-- The call `s.SlugsCreateByImage(image, eventCh)`, logged. -/
def Services.callSlugsCreateByImage (s : Services) (image : Image) (eventCh : EventCh)
    (w : World) : Except GoError Slug × World :=
  let r := s.SlugsCreateByImage image eventCh w.store
  (r.1, w.record (.SlugsCreateByImage image eventCh) (errOf r.1) r.2)

/-- The call `s.ReleasesCreate(ctx, release)`, logged. -/
def Services.callReleasesCreate (s : Services) (ctx : Context) (release : Release) (w : World) :
    (Option Release × Option GoError) × World :=
  let r := s.ReleasesCreate ctx release w.store
  (r.1, w.record (.ReleasesCreate ctx release) r.1.2 r.2)

/-- DeploymentsDo performs the Deployment. -/
def DeploymentsDo (s : Services) (ctx : Context) (opts : DeploymentsCreateOpts) (w : World) :
    (Option Release × Option GoError) × World :=
  let app := opts.App
  let image := opts.Image
  -- Grab the latest config.
  match s.callConfigsCurrent app w with
  | (.error err, w₁) => ((none, some err), w₁)
  | (.ok config, w₁) =>
    -- Create a new slug for the docker image.
    match s.callSlugsCreateByImage image opts.EventCh w₁ with
    | (.error err, w₂) => ((none, some err), w₂)
    | (.ok slug, w₂) =>
      -- Create a new release for the Config and Slug.
      let desc := "Deploy " ++ s.ImageString image
      s.callReleasesCreate ctx
        { App := app, Config := config, Slug := slug, Description := desc,
          Version := 0, Status := "" } w₂

def DeployImageToApp (s : Services) (ctx : Context) (app : App) (image : Image) (out : EventCh)
    (w : World) : (Option Release × Option GoError) × World :=
  match s.callAppsEnsureRepo app image.Repo w with
  | (some err, w₁) => ((none, some err), w₁)
  | (none, w₁) => DeploymentsDo s ctx { App := app, Image := image, EventCh := out } w₁

/-- Deploy deploys an Image to the cluster. -/
def DeployImage (s : Services) (ctx : Context) (image : Image) (out : EventCh) (w : World) :
    (Option Release × Option GoError) × World :=
  match s.callAppsFindOrCreateByRepo image.Repo w with
  | (.error err, w₁) => ((none, some err), w₁)
  | (.ok app, w₁) => DeployImageToApp s ctx app image out w₁

/-- The collaborator calls made between the worlds `w` and `w'`, oldest first. -/
def newInvocations (w w' : World) : List Invocation :=
  w'.trace.drop w.trace.length

/-- The `(ctx, release)` arguments of the `ReleasesCreate` calls in a log. -/
def releasesCreateCalls : List Invocation → List (Context × Release)
  | [] => []
  | ⟨.ReleasesCreate ctx r, _⟩ :: rest => (ctx, r) :: releasesCreateCalls rest
  | _ :: rest => releasesCreateCalls rest

/-- The collaborator a call goes to, as its position in the deploy pipeline:
0 `AppsFindOrCreateByRepo`, 1 `AppsEnsureRepo`, 2 `ConfigsCurrent`, 3 `SlugsCreateByImage`,
4 `ReleasesCreate`. -/
def Call.stage : Call → Nat
  | .AppsFindOrCreateByRepo _ => 0
  | .AppsEnsureRepo _ _ => 1
  | .ConfigsCurrent _ => 2
  | .SlugsCreateByImage _ _ => 3
  | .ReleasesCreate _ _ => 4

/-- The release `DeploymentsDo` hands to `ReleasesCreate`. -/
def deployRelease (s : Services) (opts : DeploymentsCreateOpts) (config : Config) (slug : Slug) :
    Release :=
  { App := opts.App, Config := config, Slug := slug,
    Description := "Deploy " ++ s.ImageString opts.Image, Version := 0, Status := "" }

/-- The first error in a log, if any. -/
def firstError : List Invocation → Option GoError
  | [] => none
  | ⟨_, some e⟩ :: _ => some e
  | ⟨_, none⟩ :: rest => firstError rest

/-- The release table is written by `ReleasesCreate` only: the four other collaborators leave it
as it is. -/
def Services.ReleasesWrittenByCreateOnly (s : Services) : Prop :=
  (∀ repo st, (s.AppsFindOrCreateByRepo repo st).2.releases = st.releases)
  ∧ (∀ app repo st, (s.AppsEnsureRepo app repo st).2.releases = st.releases)
  ∧ (∀ app st, (s.ConfigsCurrent app st).2.releases = st.releases)
  ∧ (∀ image ch st, (s.SlugsCreateByImage image ch st).2.releases = st.releases)

/-- The Config, Slug and Release records of a store. -/
def Store.records (st : Store) : List (App × Config) × List Slug × List Release :=
  (st.configs, st.slugs, st.releases)

/-- The collaborators that run before `ReleasesCreate` write no Config, Slug or Release record
except for a slug build that succeeds: the application services and `ConfigsCurrent` write
none, and `SlugsCreateByImage` writes none when it fails. -/
def Services.FailuresWriteNoRecord (s : Services) : Prop :=
  (∀ repo st, (s.AppsFindOrCreateByRepo repo st).2.records = st.records)
  ∧ (∀ app repo st, (s.AppsEnsureRepo app repo st).2.records = st.records)
  ∧ (∀ app st, (s.ConfigsCurrent app st).2.records = st.records)
  ∧ (∀ image ch st e st₁, s.SlugsCreateByImage image ch st = (.error e, st₁) →
      st₁.records = st.records)

/-- A `ReleasesCreate` that honours cancellation: handed a cancelled context it returns an
error and no release, and leaves the store as it is. -/
def Services.CreateHonoursCancellation (s : Services) : Prop :=
  ∀ ctx r st, ctx.cancelled = true →
    (s.ReleasesCreate ctx r st).1.1 = none ∧ (s.ReleasesCreate ctx r st).1.2 ≠ none
    ∧ (s.ReleasesCreate ctx r st).2 = st

/-- The stores the collaborators lead to from a store: those left by any number of collaborator
calls, with any arguments, made one after the other. -/
inductive Services.Reaches (s : Services) : Store → Store → Prop where
  | refl (st : Store) : Services.Reaches s st st
  | findOrCreate {st st₁ : Store} (repo : String) : Services.Reaches s st st₁ →
      Services.Reaches s st (s.AppsFindOrCreateByRepo repo st₁).2
  | ensureRepo {st st₁ : Store} (app : App) (repo : String) : Services.Reaches s st st₁ →
      Services.Reaches s st (s.AppsEnsureRepo app repo st₁).2
  | configsCurrent {st st₁ : Store} (app : App) : Services.Reaches s st st₁ →
      Services.Reaches s st (s.ConfigsCurrent app st₁).2
  | slugsCreate {st st₁ : Store} (image : Image) (ch : EventCh) : Services.Reaches s st st₁ →
      Services.Reaches s st (s.SlugsCreateByImage image ch st₁).2
  | releasesCreate {st st₁ : Store} (ctx : Context) (r : Release) : Services.Reaches s st st₁ →
      Services.Reaches s st (s.ReleasesCreate ctx r st₁).2

/-- Find-or-create by repository is idempotent: once it has resolved a repository to an
application, every later call for that repository that succeeds, in the store it left or in
any store the collaborators lead to from there, returns the same application. -/
def Services.FindOrCreateIdempotent (s : Services) : Prop :=
  ∀ repo st a st₁, s.AppsFindOrCreateByRepo repo st = (.ok a, st₁) →
    ∀ st₂, s.Reaches st₁ st₂ →
      ∀ a₂ t, s.AppsFindOrCreateByRepo repo st₂ = (.ok a₂, t) → a₂ = a

/-- The version numbers of the releases of `app`, in the order of creation. -/
def versionsOf (app : App) (rs : List Release) : List Nat :=
  (rs.filter (fun r => r.App = app)).map (fun r => r.Version)

/-- The highest version among the releases of `app`, 0 if it has none. -/
def highestVersion (app : App) (rs : List Release) : Nat :=
  (versionsOf app rs).foldl max 0

/-- Modelled from the spec: the Formation table after "creating a default single-instance
`web` entry in Formation if none exists yet" for the application. -/
def ensureFormation (app : App) (fs : List (App × String × Nat)) : List (App × String × Nat) :=
  if fs.any (fun f => f.1 = app) then fs else fs ++ [(app, "web", 1)]

/-- Modelled from the spec: the error of a cancelled context (`context.Canceled`). -/
def ErrCanceled : GoError := GoError.other "context canceled"

/-- Modelled from the spec: the release `ReleaseLedger.Create` makes of the release `r` it is
handed: `r` with the next version, 1 + the highest existing version of its application (0 if
none), and the given status. -/
def nextRelease (r : Release) (st : Store) (status : String) : Release :=
  { r with Version := 1 + highestVersion r.App st.releases, Status := status }

/-- Modelled from the spec: the store with the release `rel` added to the ledger and the
default Formation of its application ensured. -/
def Store.retain (st : Store) (rel : Release) : Store :=
  { st with releases := st.releases ++ [rel],
            formations := ensureFormation rel.App st.formations }

/-- Modelled from the spec: `ReleaseLedger.Create`, the method `ReleasesCreate` of
`releasesService`, which is declared outside the deployer's file.  Handed a context that is
already cancelled it creates no release and returns the cancellation error ("no Release
created if cancellation occurs before the Release is committed").  Otherwise it computes the
next version as 1 + the highest existing version of the application (0 if none), creates the
release in status `pending`, hands it with the application's Formation to the scheduling
collaborator (`scheduler`, a parameter), and resolves it to `success` on acceptance and to
`failed` on rejection; the failed release is retained in the ledger and the error is surfaced
to the caller.  Each call is one atomic step on the store, which is the per-application
serialisation the spec requires. -/
def ledgerCreate (scheduler : Context → Release → List (App × String × Nat) → Option GoError)
    (ctx : Context) (r : Release) (st : Store) : (Option Release × Option GoError) × Store :=
  if ctx.cancelled then ((none, some ErrCanceled), st)
  else
    match scheduler ctx (nextRelease r st StatusPending)
        (ensureFormation r.App st.formations) with
    | none =>
      ((some (nextRelease r st StatusSuccess), none),
       st.retain (nextRelease r st StatusSuccess))
    | some err =>
      ((none, some err), st.retain (nextRelease r st StatusFailed))

/-- Modelled from the spec: the method `Image.String()`, the image reference `<repo>:<id>` the
deploy tests show in the release description. -/
def sampleImageString (image : Image) : String := image.Repo ++ ":" ++ image.ID

/-- Modelled from the spec: a sample `AppsFindOrCreateByRepo`, which resolves a repository to
the application named after it and creates that application when it does not exist yet. -/
def sampleAppsFindOrCreateByRepo (repo : String) (st : Store) : Except GoError App × Store :=
  let app : App := { Name := repo }
  if st.apps.any (fun a => a.1 = app) then (.ok app, st)
  else (.ok app, { st with apps := st.apps ++ [(app, none)] })

/-- Modelled from the spec: a sample `AppsEnsureRepo`, which sets the repository linkage of the
application; it fails on an application that does not exist. -/
def sampleAppsEnsureRepo (app : App) (repo : String) (st : Store) : Option GoError × Store :=
  if st.apps.any (fun a => a.1 = app) then
    (none, { st with apps := st.apps.map (fun a => if a.1 = app then (a.1, some repo) else a) })
  else (some GoError.RecordNotFound, st)

/-- Modelled from the spec: a sample `ConfigsCurrent`, the latest Config of the application or
an empty Config if it has never had one set. -/
def sampleConfigsCurrent (app : App) (st : Store) : Except GoError Config × Store :=
  match (st.configs.filter (fun c => c.1 = app)).getLast? with
  | some c => (.ok c.2, st)
  | none => (.ok { ID := "", Vars := [] }, st)

/-- Modelled from the spec: a sample `SlugsCreateByImage`, which fails on an image without an
identifier and otherwise persists and returns the slug built from the image. -/
def sampleSlugsCreateByImage (image : Image) (_eventCh : EventCh) (st : Store) :
    Except GoError Slug × Store :=
  if image.ID = "" then (.error (GoError.ValidationError "image has no id"), st)
  else
    let slug : Slug := { ID := sampleImageString image, Image := image }
    (.ok slug, { st with slugs := st.slugs ++ [slug] })

/-- The sample services around a given `ReleasesCreate`. -/
def sampleServices
    (create : Context → Release → Store → (Option Release × Option GoError) × Store) :
    Services :=
  { ImageString := sampleImageString
    AppsFindOrCreateByRepo := sampleAppsFindOrCreateByRepo
    AppsEnsureRepo := sampleAppsEnsureRepo
    ConfigsCurrent := sampleConfigsCurrent
    SlugsCreateByImage := sampleSlugsCreateByImage
    ReleasesCreate := create }

/-- A scheduler that accepts every release. -/
def acceptAll (_ctx : Context) (_r : Release) (_f : List (App × String × Nat)) :
    Option GoError := none

/-- A scheduler that rejects the release with version 1 and accepts every other one. -/
def rejectFirst (_ctx : Context) (r : Release) (_f : List (App × String × Nat)) :
    Option GoError :=
  if r.Version = 1 then some (GoError.other "scheduler rejected the release") else none

/-- A `ReleasesCreate` that fails and writes nothing. -/
def failingCreate (_ctx : Context) (_r : Release) (st : Store) :
    (Option Release × Option GoError) × Store :=
  ((none, some (GoError.other "release creation failed")), st)

/-- A `ReleasesCreate` that honours cancellation in front of the ledger. -/
def cancellableCreate (ctx : Context) (r : Release) (st : Store) :
    (Option Release × Option GoError) × Store :=
  if ctx.cancelled then ((none, some (GoError.other "context canceled")), st)
  else ledgerCreate acceptAll ctx r st

/-- A store without records. -/
def emptyStore : Store :=
  { apps := [], configs := [], slugs := [], releases := [], formations := [] }

/-- The world of an empty store in which no collaborator has been called. -/
def emptyWorld : World := { store := emptyStore, trace := [] }

/-- The image of the deploy tests, with a short identifier. -/
def acmeImage : Image := { Repo := "ejholmes/acme-inc", ID := "ec238137" }

/-- The application the sample services resolve `acmeImage` to. -/
def acmeApp : App := { Name := "ejholmes/acme-inc" }

/-- No collaborator is called after one that returned an error: an invocation with an error is
the last of the log. -/
def StopsAtFirstError (evs : List Invocation) : Prop :=
  ∀ pre inv post, evs = pre ++ inv :: post → inv.err ≠ none → post = []

/-- A deploy request: one of the three entry points of the deployer with its arguments. -/
inductive DeployRequest where
  | DeploymentsDo (ctx : Context) (opts : DeploymentsCreateOpts)
  | DeployImageToApp (ctx : Context) (app : App) (image : Image) (out : EventCh)
  | DeployImage (ctx : Context) (image : Image) (out : EventCh)
  deriving DecidableEq, Repr

/-- The number of `ReleasesCreate` calls for `app` in a log that were made with a context
that is not cancelled. -/
def createCount (app : App) (evs : List Invocation) : Nat :=
  ((releasesCreateCalls evs).filter
    (fun cr => !cr.1.cancelled && decide (cr.2.App = app))).length

/-- What one run of a part of the deploy pipeline that starts at stage `k` did between `w` and
`w₂`, returning `res`: it extended the log by calls to the collaborators of stages `k`, `k + 1`,
... in that order, stopped at the first error, and returned that error, if any. -/
structure PipelineRun (k : Nat) (w : World) (res : Option Release × Option GoError)
    (w₂ : World) : Prop where
  trace_eq : w₂.trace = w.trace ++ newInvocations w w₂
  stages : (newInvocations w w₂).map (fun inv => inv.call.stage)
            = List.range' k (newInvocations w w₂).length
  err_eq : res.2 = firstError (newInvocations w w₂)
  stops : StopsAtFirstError (newInvocations w w₂)
  bound : k + (newInvocations w w₂).length ≤ 5

/-- The invariant of the ledger along deploys that started in `w₀`: the versions of each
application are 1, 2, ... up to the number of `ReleasesCreate` calls made for it with a live
context, every release is resolved to `success` or `failed`, and the releases handed to
`ReleasesCreate` carry no version. -/
structure LedgerInv (w₀ w : World) : Prop where
  trace_eq : w.trace = w₀.trace ++ newInvocations w₀ w
  versions : ∀ a, versionsOf a w.store.releases
    = List.range' 1 (createCount a (newInvocations w₀ w))
  statuses : ∀ r ∈ w.store.releases, r.Status = StatusSuccess ∨ r.Status = StatusFailed
  unversioned : ∀ cr ∈ releasesCreateCalls (newInvocations w₀ w), cr.2.Version = 0

/-- A deploy in flight, by the collaborator call it makes next: `DeployImage` is about to call
`AppsFindOrCreateByRepo`, `DeployImageToApp` is about to call `AppsEnsureRepo`, `DeploymentsDo`
is about to call `ConfigsCurrent`, `slugsCreate` is `DeploymentsDo` about to call
`SlugsCreateByImage`, `releasesCreate` is `DeploymentsDo` about to call `ReleasesCreate`, and
`returned` is a deploy that has returned. -/
inductive Task where
  | DeployImage (ctx : Context) (image : Image) (out : EventCh)
  | DeployImageToApp (ctx : Context) (app : App) (image : Image) (out : EventCh)
  | DeploymentsDo (ctx : Context) (opts : DeploymentsCreateOpts)
  | slugsCreate (ctx : Context) (opts : DeploymentsCreateOpts) (config : Config)
  | releasesCreate (ctx : Context) (opts : DeploymentsCreateOpts) (config : Config)
      (slug : Slug)
  | returned (res : Option Release × Option GoError)
  deriving DecidableEq, Repr

/-- One step of a deploy in flight: its next collaborator call, and what the deployer does with
the result (return the error, or go on to the next call). -/
def Task.step (s : Services) (t : Task) (w : World) : Task × World :=
  match t with
  | .DeployImage ctx image out =>
    match s.callAppsFindOrCreateByRepo image.Repo w with
    | (.error err, w₁) => (.returned (none, some err), w₁)
    | (.ok app, w₁) => (.DeployImageToApp ctx app image out, w₁)
  | .DeployImageToApp ctx app image out =>
    match s.callAppsEnsureRepo app image.Repo w with
    | (some err, w₁) => (.returned (none, some err), w₁)
    | (none, w₁) => (.DeploymentsDo ctx { App := app, Image := image, EventCh := out }, w₁)
  | .DeploymentsDo ctx opts =>
    match s.callConfigsCurrent opts.App w with
    | (.error err, w₁) => (.returned (none, some err), w₁)
    | (.ok config, w₁) => (.slugsCreate ctx opts config, w₁)
  | .slugsCreate ctx opts config =>
    match s.callSlugsCreateByImage opts.Image opts.EventCh w with
    | (.error err, w₁) => (.returned (none, some err), w₁)
    | (.ok slug, w₁) => (.releasesCreate ctx opts config slug, w₁)
  | .releasesCreate ctx opts config slug =>
    ((Task.returned (s.callReleasesCreate ctx (deployRelease s opts config slug) w).1),
     (s.callReleasesCreate ctx (deployRelease s opts config slug) w).2)
  | .returned res => (.returned res, w)

/-- What one step of the deploy `t` in the world `w`, leading to `r`, does in front of the
ledger: it extends the log, hands `ReleasesCreate` only releases without version, and either
leaves the release table as it is, returning no release, or adds one release with the next
version of its application, resolved to `success` and returned, or resolved to `failed` with
no release returned. -/
def StepEffect (t : Task) (w : World) (r : Task × World) : Prop :=
  r.2.trace = w.trace ++ newInvocations w r.2
  ∧ (∀ cr ∈ releasesCreateCalls (newInvocations w r.2), cr.2.Version = 0)
  ∧ (((∀ a, createCount a (newInvocations w r.2) = 0)
      ∧ r.2.store.releases = w.store.releases
      ∧ (∀ res, r.1 = .returned res → t = .returned res ∨ res.1 = none))
    ∨ (∃ rel,
        (∀ a, createCount a (newInvocations w r.2) = if rel.App = a then 1 else 0)
        ∧ r.2.store.releases = w.store.releases ++ [rel]
        ∧ rel.Version = 1 + highestVersion rel.App w.store.releases
        ∧ (rel.Status = StatusSuccess ∨ rel.Status = StatusFailed)
        ∧ ∃ res, r.1 = .returned res
            ∧ ((res = (some rel, none) ∧ rel.Status = StatusSuccess) ∨ res.1 = none)))

/-- Every release that a deploy among `ts` has returned is in the ledger with status `success`,
and was returned with a nil error. -/
def ResultsInv (ts : List Task) (w : World) : Prop :=
  ∀ res, Task.returned res ∈ ts → ∀ rel, res.1 = some rel →
    res.2 = none ∧ rel ∈ w.store.releases ∧ rel.Status = StatusSuccess

/-- Run `n` steps of one deploy in flight. -/
def Task.steps (s : Services) : Nat → Task → World → Task × World
  | 0, t, w => (t, w)
  | n + 1, t, w => Task.steps s n (t.step s w).1 (t.step s w).2

/-- One step of the `i`-th of several deploys in flight; nothing happens when there is no such
deploy. -/
def stepAt (s : Services) (i : Nat) (ts : List Task) (w : World) : List Task × World :=
  match ts[i]? with
  | none => (ts, w)
  | some t => (ts.set i (t.step s w).1, (t.step s w).2)

/-- Run several deploys concurrently: `schedule` lists, in the order they happen, which deploy
makes its next collaborator call.  Every interleaving of the collaborator calls of the deploys
is a schedule. -/
def runSchedule (s : Services) : List Nat → List Task → World → List Task × World
  | [], ts, w => (ts, w)
  | i :: rest, ts, w => runSchedule s rest (stepAt s i ts w).1 (stepAt s i ts w).2

/-- The schedule that runs `n` deploys one after the other, the `k`-th being deploy number
`first + k`: five steps each, which is the longest a deploy takes. -/
def sequentialSchedule (first : Nat) : Nat → List Nat
  | 0 => []
  | n + 1 => List.replicate 5 first ++ sequentialSchedule (first + 1) n

/-- The context of a deploy request. -/
def DeployRequest.ctx : DeployRequest → Context
  | .DeploymentsDo ctx _ => ctx
  | .DeployImageToApp ctx _ _ _ => ctx
  | .DeployImage ctx _ _ => ctx

/-- Run one deploy request. -/
def DeployRequest.run (s : Services) (req : DeployRequest) (w : World) :
    (Option Release × Option GoError) × World :=
  match req with
  | .DeploymentsDo ctx opts => Empire.DeploymentsDo s ctx opts w
  | .DeployImageToApp ctx app image out => Empire.DeployImageToApp s ctx app image out w
  | .DeployImage ctx image out => Empire.DeployImage s ctx image out w

/-- The deploy in flight that a deploy request starts. -/
def DeployRequest.task : DeployRequest → Task
  | .DeploymentsDo ctx opts => .DeploymentsDo ctx opts
  | .DeployImageToApp ctx app image out => .DeployImageToApp ctx app image out
  | .DeployImage ctx image out => .DeployImage ctx image out

/-- Run deploy requests one after the other, each in the world the previous one left. -/
def runDeploys (s : Services) : List DeployRequest → World → World
  | [], w => w
  | req :: rest, w => runDeploys s rest (req.run s w).2

/-- The results of deploy requests run one after the other, in the order of the requests. -/
def deployResults (s : Services) :
    List DeployRequest → World → List (Option Release × Option GoError)
  | [], _ => []
  | req :: rest, w => (req.run s w).1 :: deployResults s rest (req.run s w).2

end Empire

namespace Empire

open Heroku (GoError)

theorem newInvocations_append (w : World) (st : Store) (l : List Invocation) :
    newInvocations w { store := st, trace := w.trace ++ l } = l := by
  simp [newInvocations]

/-- The three ways `DeploymentsDo` runs: the config fetch fails, the slug build fails, or the
release is handed to `ReleasesCreate`. -/
theorem DeploymentsDo_cases (s : Services) (ctx : Context) (opts : DeploymentsCreateOpts)
    (w : World) :
    (∃ e st₁, s.ConfigsCurrent opts.App w.store = (.error e, st₁)
      ∧ DeploymentsDo s ctx opts w
        = ((none, some e),
           { store := st₁, trace := w.trace ++ [⟨.ConfigsCurrent opts.App, some e⟩] }))
    ∨ (∃ c st₁ e st₂, s.ConfigsCurrent opts.App w.store = (.ok c, st₁)
      ∧ s.SlugsCreateByImage opts.Image opts.EventCh st₁ = (.error e, st₂)
      ∧ DeploymentsDo s ctx opts w
        = ((none, some e),
           { store := st₂,
             trace := w.trace ++ [⟨.ConfigsCurrent opts.App, none⟩,
               ⟨.SlugsCreateByImage opts.Image opts.EventCh, some e⟩] }))
    ∨ (∃ c st₁ sl st₂, s.ConfigsCurrent opts.App w.store = (.ok c, st₁)
      ∧ s.SlugsCreateByImage opts.Image opts.EventCh st₁ = (.ok sl, st₂)
      ∧ DeploymentsDo s ctx opts w
        = ((s.ReleasesCreate ctx (deployRelease s opts c sl) st₂).1,
           { store := (s.ReleasesCreate ctx (deployRelease s opts c sl) st₂).2,
             trace := w.trace ++ [⟨.ConfigsCurrent opts.App, none⟩,
               ⟨.SlugsCreateByImage opts.Image opts.EventCh, none⟩,
               ⟨.ReleasesCreate ctx (deployRelease s opts c sl),
                 (s.ReleasesCreate ctx (deployRelease s opts c sl) st₂).1.2⟩] })) := by
  rcases h₁ : s.ConfigsCurrent opts.App w.store with ⟨r₁, st₁⟩
  cases r₁ with
  | error e =>
    left
    exact ⟨e, st₁, rfl, by
      simp [DeploymentsDo, Services.callConfigsCurrent, h₁, World.record, errOf]⟩
  | ok c =>
    right
    rcases h₂ : s.SlugsCreateByImage opts.Image opts.EventCh st₁ with ⟨r₂, st₂⟩
    cases r₂ with
    | error e =>
      left
      exact ⟨c, st₁, e, st₂, rfl, h₂, by
        simp [DeploymentsDo, Services.callConfigsCurrent, Services.callSlugsCreateByImage,
          h₁, h₂, World.record, errOf]⟩
    | ok sl =>
      right
      exact ⟨c, st₁, sl, st₂, rfl, h₂, by
        simp [DeploymentsDo, Services.callConfigsCurrent, Services.callSlugsCreateByImage,
          Services.callReleasesCreate, h₁, h₂, World.record, errOf, deployRelease]⟩

/-- The two ways `DeployImageToApp` runs: `AppsEnsureRepo` fails, or the deploy goes on in
`DeploymentsDo`. -/
theorem DeployImageToApp_cases (s : Services) (ctx : Context) (app : App) (image : Image)
    (out : EventCh) (w : World) :
    (∃ e st₀, s.AppsEnsureRepo app image.Repo w.store = (some e, st₀)
      ∧ DeployImageToApp s ctx app image out w
        = ((none, some e),
           { store := st₀, trace := w.trace ++ [⟨.AppsEnsureRepo app image.Repo, some e⟩] }))
    ∨ (∃ st₀, s.AppsEnsureRepo app image.Repo w.store = (none, st₀)
      ∧ DeployImageToApp s ctx app image out w
        = DeploymentsDo s ctx { App := app, Image := image, EventCh := out }
            { store := st₀, trace := w.trace ++ [⟨.AppsEnsureRepo app image.Repo, none⟩] }) := by
  rcases h₀ : s.AppsEnsureRepo app image.Repo w.store with ⟨r₀, st₀⟩
  cases r₀ with
  | some e =>
    left
    exact ⟨e, st₀, rfl, by simp [DeployImageToApp, Services.callAppsEnsureRepo, h₀, World.record]⟩
  | none =>
    right
    exact ⟨st₀, rfl, by simp [DeployImageToApp, Services.callAppsEnsureRepo, h₀, World.record]⟩

/-- The two ways `DeployImage` runs: `AppsFindOrCreateByRepo` fails, or the deploy goes on in
`DeployImageToApp` with the application it returned. -/
theorem DeployImage_cases (s : Services) (ctx : Context) (image : Image) (out : EventCh)
    (w : World) :
    (∃ e st, s.AppsFindOrCreateByRepo image.Repo w.store = (.error e, st)
      ∧ DeployImage s ctx image out w
        = ((none, some e),
           { store := st, trace := w.trace ++ [⟨.AppsFindOrCreateByRepo image.Repo, some e⟩] }))
    ∨ (∃ app st, s.AppsFindOrCreateByRepo image.Repo w.store = (.ok app, st)
      ∧ DeployImage s ctx image out w
        = DeployImageToApp s ctx app image out
            { store := st,
              trace := w.trace ++ [⟨.AppsFindOrCreateByRepo image.Repo, none⟩] }) := by
  rcases h : s.AppsFindOrCreateByRepo image.Repo w.store with ⟨r, st⟩
  cases r with
  | error e =>
    left
    exact ⟨e, st, rfl, by
      simp [DeployImage, Services.callAppsFindOrCreateByRepo, h, World.record, errOf]⟩
  | ok app =>
    right
    exact ⟨app, st, rfl, by
      simp [DeployImage, Services.callAppsFindOrCreateByRepo, h, World.record, errOf]⟩

theorem newInvocations_self_append (w : World) (st : Store) (x : Invocation) (w₂ : World)
    (l : List Invocation) (h : w₂.trace = (w.trace ++ [x]) ++ l) :
    newInvocations w w₂ = x :: l
    ∧ newInvocations { store := st, trace := w.trace ++ [x] } w₂ = l := by
  simp [newInvocations, h]

theorem stopsAtFirstError_singleton (x : Invocation) : StopsAtFirstError [x] := by
  intro pre inv post h _
  cases pre with
  | nil => simp at h; exact h.2
  | cons p ps => simp at h

theorem stopsAtFirstError_cons (x : Invocation) (l : List Invocation) (hx : x.err = none)
    (hl : StopsAtFirstError l) : StopsAtFirstError (x :: l) := by
  intro pre inv post h herr
  cases pre with
  | nil =>
    simp at h
    exact absurd (h.1 ▸ hx) herr
  | cons p ps =>
    simp at h
    exact hl ps inv post h.2 herr

theorem call_stage_le (c : Call) : c.stage ≤ 4 := by
  cases c <;> simp [Call.stage]

theorem firstError_ne_none_iff (evs : List Invocation) :
    firstError evs ≠ none ↔ ∃ inv ∈ evs, inv.err ≠ none := by
  induction evs with
  | nil => simp [firstError]
  | cons x l ih =>
    rcases x with ⟨c, _ | e⟩
    · simp [firstError, ih]
    · simp [firstError]

theorem pipelineRun_step {k : Nat} {w w₂ : World} {res : Option Release × Option GoError}
    (st : Store) (c : Call) (hc : c.stage = k)
    (h : PipelineRun (k + 1) { store := st, trace := w.trace ++ [⟨c, none⟩] } res w₂) :
    PipelineRun k w res w₂
    ∧ newInvocations w w₂
      = ⟨c, none⟩ :: newInvocations { store := st, trace := w.trace ++ [⟨c, none⟩] } w₂ := by
  have ht := h.trace_eq
  simp only at ht
  have hn := (newInvocations_self_append w st ⟨c, none⟩ w₂ _ ht).1
  refine ⟨⟨?_, ?_, ?_, ?_, ?_⟩, hn⟩
  · rw [hn, ht]; simp
  · rw [hn]; simp [List.range', hc, h.stages]
  · rw [hn]; simp [firstError, h.err_eq]
  · rw [hn]; exact stopsAtFirstError_cons _ _ rfl h.stops
  · rw [hn]
    have := h.bound
    simp only [List.length_cons]
    omega

theorem pipelineRun_last {k : Nat} (w : World) (st : Store) (c : Call) (hc : c.stage = k)
    (res : Option Release × Option GoError) :
    PipelineRun k w res { store := st, trace := w.trace ++ [⟨c, res.2⟩] } := by
  have hn : newInvocations w { store := st, trace := w.trace ++ [⟨c, res.2⟩] }
      = [⟨c, res.2⟩] := newInvocations_append w st _
  refine ⟨?_, ?_, ?_, ?_, ?_⟩
  · rw [hn]
  · rw [hn]; simp [List.range', hc]
  · rw [hn]
    cases h : res.2 <;> simp [firstError]
  · rw [hn]; exact stopsAtFirstError_singleton _
  · rw [hn]
    have := call_stage_le c
    simp only [List.length_singleton]
    omega

theorem DeploymentsDo_pipeline (s : Services) (ctx : Context) (opts : DeploymentsCreateOpts)
    (w : World) :
    PipelineRun 2 w (DeploymentsDo s ctx opts w).1 (DeploymentsDo s ctx opts w).2 := by
  rcases DeploymentsDo_cases s ctx opts w with ⟨e, st₁, _, h⟩ | ⟨c, st₁, e, st₂, _, _, h⟩
    | ⟨c, st₁, sl, st₂, _, _, h⟩
  · rw [h]
    exact pipelineRun_last w st₁ (.ConfigsCurrent opts.App) rfl (none, some e)
  · rw [h]
    have h3 := pipelineRun_last
      { store := st₁, trace := w.trace ++ [⟨.ConfigsCurrent opts.App, none⟩] }
      st₂ (.SlugsCreateByImage opts.Image opts.EventCh) rfl (none, some e)
    exact (pipelineRun_step st₁ (.ConfigsCurrent opts.App) rfl (by simpa using h3)).1
  · rw [h]
    have h4 := pipelineRun_last
      { store := st₂,
        trace := w.trace ++ [⟨.ConfigsCurrent opts.App, none⟩,
          ⟨.SlugsCreateByImage opts.Image opts.EventCh, none⟩] }
      (s.ReleasesCreate ctx (deployRelease s opts c sl) st₂).2
      (.ReleasesCreate ctx (deployRelease s opts c sl)) rfl
      (s.ReleasesCreate ctx (deployRelease s opts c sl) st₂).1
    have h3 : PipelineRun 3
        { store := st₁, trace := w.trace ++ [⟨.ConfigsCurrent opts.App, none⟩] } _ _ :=
      (pipelineRun_step st₂ (.SlugsCreateByImage opts.Image opts.EventCh) rfl
        (by simpa using h4)).1
    exact (pipelineRun_step st₁ (.ConfigsCurrent opts.App) rfl h3).1

theorem DeployImageToApp_pipeline (s : Services) (ctx : Context) (app : App) (image : Image)
    (out : EventCh) (w : World) :
    PipelineRun 1 w (DeployImageToApp s ctx app image out w).1
      (DeployImageToApp s ctx app image out w).2 := by
  rcases DeployImageToApp_cases s ctx app image out w with ⟨e, st₀, _, h⟩ | ⟨st₀, _, h⟩
  · rw [h]
    exact pipelineRun_last w st₀ (.AppsEnsureRepo app image.Repo) rfl (none, some e)
  · rw [h]
    exact (pipelineRun_step st₀ (.AppsEnsureRepo app image.Repo) rfl
      (DeploymentsDo_pipeline s ctx _ _)).1

theorem DeployImage_pipeline (s : Services) (ctx : Context) (image : Image) (out : EventCh)
    (w : World) :
    PipelineRun 0 w (DeployImage s ctx image out w).1 (DeployImage s ctx image out w).2 := by
  rcases DeployImage_cases s ctx image out w with ⟨e, st, _, h⟩ | ⟨app, st, _, h⟩
  · rw [h]
    exact pipelineRun_last w st (.AppsFindOrCreateByRepo image.Repo) rfl (none, some e)
  · rw [h]
    exact (pipelineRun_step st (.AppsFindOrCreateByRepo image.Repo) rfl
      (DeployImageToApp_pipeline s ctx app image out _)).1

theorem pipelineRun_stage_ge {k : Nat} {w w₂ : World} {res : Option Release × Option GoError}
    (h : PipelineRun k w res w₂) :
    ∀ inv ∈ newInvocations w w₂, k ≤ inv.call.stage := by
  intro inv hinv
  have hm : inv.call.stage ∈ (newInvocations w w₂).map (fun inv => inv.call.stage) :=
    List.mem_map_of_mem _ hinv
  rw [h.stages] at hm
  exact (List.mem_range'_1.mp hm).1

/-- The log of `DeployImageToApp`: the call of `AppsEnsureRepo`, then the log of
`DeploymentsDo` if it succeeded. -/
theorem DeployImageToApp_invocations (s : Services) (ctx : Context) (app : App) (image : Image)
    (out : EventCh) (w : World) :
    (∃ e st₀, s.AppsEnsureRepo app image.Repo w.store = (some e, st₀)
      ∧ DeployImageToApp s ctx app image out w
        = ((none, some e),
           { store := st₀, trace := w.trace ++ [⟨.AppsEnsureRepo app image.Repo, some e⟩] })
      ∧ newInvocations w (DeployImageToApp s ctx app image out w).2
        = [⟨.AppsEnsureRepo app image.Repo, some e⟩])
    ∨ (∃ st₀, s.AppsEnsureRepo app image.Repo w.store = (none, st₀)
      ∧ DeployImageToApp s ctx app image out w
        = DeploymentsDo s ctx { App := app, Image := image, EventCh := out }
            { store := st₀, trace := w.trace ++ [⟨.AppsEnsureRepo app image.Repo, none⟩] }
      ∧ newInvocations w (DeployImageToApp s ctx app image out w).2
        = ⟨.AppsEnsureRepo app image.Repo, none⟩
          :: newInvocations
              { store := st₀, trace := w.trace ++ [⟨.AppsEnsureRepo app image.Repo, none⟩] }
              (DeploymentsDo s ctx { App := app, Image := image, EventCh := out }
                { store := st₀,
                  trace := w.trace ++ [⟨.AppsEnsureRepo app image.Repo, none⟩] }).2) := by
  rcases DeployImageToApp_cases s ctx app image out w with ⟨e, st₀, h₀, h⟩ | ⟨st₀, h₀, h⟩
  · left
    exact ⟨e, st₀, h₀, h, by rw [h]; exact newInvocations_append w st₀ _⟩
  · right
    refine ⟨st₀, h₀, h, ?_⟩
    rw [h]
    exact (pipelineRun_step st₀ (.AppsEnsureRepo app image.Repo) rfl
      (DeploymentsDo_pipeline s ctx _ _)).2

/-- The log of `DeployImage`: the call of `AppsFindOrCreateByRepo`, then the log of
`DeployImageToApp` if it succeeded. -/
theorem DeployImage_invocations (s : Services) (ctx : Context) (image : Image) (out : EventCh)
    (w : World) :
    (∃ e st, s.AppsFindOrCreateByRepo image.Repo w.store = (.error e, st)
      ∧ DeployImage s ctx image out w
        = ((none, some e),
           { store := st, trace := w.trace ++ [⟨.AppsFindOrCreateByRepo image.Repo, some e⟩] })
      ∧ newInvocations w (DeployImage s ctx image out w).2
        = [⟨.AppsFindOrCreateByRepo image.Repo, some e⟩])
    ∨ (∃ app st, s.AppsFindOrCreateByRepo image.Repo w.store = (.ok app, st)
      ∧ DeployImage s ctx image out w
        = DeployImageToApp s ctx app image out
            { store := st, trace := w.trace ++ [⟨.AppsFindOrCreateByRepo image.Repo, none⟩] }
      ∧ newInvocations w (DeployImage s ctx image out w).2
        = ⟨.AppsFindOrCreateByRepo image.Repo, none⟩
          :: newInvocations
              { store := st, trace := w.trace ++ [⟨.AppsFindOrCreateByRepo image.Repo, none⟩] }
              (DeployImageToApp s ctx app image out
                { store := st,
                  trace := w.trace ++ [⟨.AppsFindOrCreateByRepo image.Repo, none⟩] }).2) := by
  rcases DeployImage_cases s ctx image out w with ⟨e, st, h₀, h⟩ | ⟨app, st, h₀, h⟩
  · left
    exact ⟨e, st, h₀, h, by rw [h]; exact newInvocations_append w st _⟩
  · right
    refine ⟨app, st, h₀, h, ?_⟩
    rw [h]
    exact (pipelineRun_step st (.AppsFindOrCreateByRepo image.Repo) rfl
      (DeployImageToApp_pipeline s ctx app image out _)).2

/-- A slug build that fails in `DeploymentsDo` ends the deploy without a call of
`ReleasesCreate`. -/
theorem DeploymentsDo_build_failure (s : Services) (ctx : Context)
    (opts : DeploymentsCreateOpts) (w : World)
    (hfail : ∃ inv ∈ newInvocations w (DeploymentsDo s ctx opts w).2,
      inv.call.stage = 3 ∧ inv.err ≠ none) :
    releasesCreateCalls (newInvocations w (DeploymentsDo s ctx opts w).2) = []
    ∧ (DeploymentsDo s ctx opts w).1.1 = none
    ∧ (s.ReleasesWrittenByCreateOnly →
        (DeploymentsDo s ctx opts w).2.store.releases = w.store.releases) := by
  rcases DeploymentsDo_cases s ctx opts w with ⟨e, st₁, h₁, h⟩ | ⟨c, st₁, e, st₂, h₁, h₂, h⟩
    | ⟨c, st₁, sl, st₂, h₁, h₂, h⟩
  · rw [h] at hfail
    simp [newInvocations, Call.stage] at hfail
  · rw [h]
    refine ⟨by simp [newInvocations, releasesCreateCalls], rfl, ?_⟩
    intro hf
    have e₁ := hf.2.2.1 opts.App w.store
    have e₂ := hf.2.2.2 opts.Image opts.EventCh st₁
    rw [h₁] at e₁
    rw [h₂] at e₂
    simp only at e₁ e₂ ⊢
    rw [e₂, e₁]
  · rw [h] at hfail
    simp [newInvocations, Call.stage] at hfail

theorem DeployImageToApp_build_failure (s : Services) (ctx : Context) (app : App)
    (image : Image) (out : EventCh) (w : World)
    (hfail : ∃ inv ∈ newInvocations w (DeployImageToApp s ctx app image out w).2,
      inv.call.stage = 3 ∧ inv.err ≠ none) :
    releasesCreateCalls (newInvocations w (DeployImageToApp s ctx app image out w).2) = []
    ∧ (DeployImageToApp s ctx app image out w).1.1 = none
    ∧ (s.ReleasesWrittenByCreateOnly →
        (DeployImageToApp s ctx app image out w).2.store.releases = w.store.releases) := by
  rcases DeployImageToApp_invocations s ctx app image out w with ⟨e, st₀, h₀, h, hn⟩
    | ⟨st₀, h₀, h, hn⟩
  · rw [hn] at hfail
    simp [Call.stage] at hfail
  · rw [hn] at hfail ⊢
    simp only [List.mem_cons, exists_eq_or_imp, Call.stage] at hfail
    rcases hfail with hbad | hfail
    · simp at hbad
    · have hd := DeploymentsDo_build_failure s ctx _ _ hfail
      rw [h]
      refine ⟨by simpa [releasesCreateCalls] using hd.1, hd.2.1, ?_⟩
      intro hf
      have e₀ := hf.2.1 app image.Repo w.store
      rw [h₀] at e₀
      rw [hd.2.2 hf]
      exact e₀

theorem DeployImage_build_failure (s : Services) (ctx : Context) (image : Image)
    (out : EventCh) (w : World)
    (hfail : ∃ inv ∈ newInvocations w (DeployImage s ctx image out w).2,
      inv.call.stage = 3 ∧ inv.err ≠ none) :
    releasesCreateCalls (newInvocations w (DeployImage s ctx image out w).2) = []
    ∧ (DeployImage s ctx image out w).1.1 = none
    ∧ (s.ReleasesWrittenByCreateOnly →
        (DeployImage s ctx image out w).2.store.releases = w.store.releases) := by
  rcases DeployImage_invocations s ctx image out w with ⟨e, st, h₀, h, hn⟩
    | ⟨app, st, h₀, h, hn⟩
  · rw [hn] at hfail
    simp [Call.stage] at hfail
  · rw [hn] at hfail ⊢
    simp only [List.mem_cons, exists_eq_or_imp, Call.stage] at hfail
    rcases hfail with hbad | hfail
    · simp at hbad
    · have hd := DeployImageToApp_build_failure s ctx app image out _ hfail
      rw [h]
      refine ⟨by simpa [releasesCreateCalls] using hd.1, hd.2.1, ?_⟩
      intro hf
      have e₀ := hf.1 image.Repo w.store
      rw [h₀] at e₀
      rw [hd.2.2 hf]
      exact e₀

/-- The sample collaborators other than `ReleasesCreate` do not write the release table. -/
theorem sampleServices_releasesWrittenByCreateOnly
    (create : Context → Release → Store → (Option Release × Option GoError) × Store) :
    (sampleServices create).ReleasesWrittenByCreateOnly := by
  refine ⟨?_, ?_, ?_, ?_⟩
  · intro repo st
    simp only [sampleServices, sampleAppsFindOrCreateByRepo]
    split <;> rfl
  · intro app repo st
    simp only [sampleServices, sampleAppsEnsureRepo]
    split <;> rfl
  · intro app st
    simp only [sampleServices, sampleConfigsCurrent]
    split <;> rfl
  · intro image ch st
    simp only [sampleServices, sampleSlugsCreateByImage]
    split <;> rfl

/-- Every call of `ReleasesCreate` made by `DeploymentsDo` carries the context and the
application it was given, and a release without version. -/
theorem DeploymentsDo_create_calls (s : Services) (ctx : Context)
    (opts : DeploymentsCreateOpts) (w : World) :
    ∀ cr ∈ releasesCreateCalls (newInvocations w (DeploymentsDo s ctx opts w).2),
      cr.1 = ctx ∧ cr.2.App = opts.App ∧ cr.2.Version = 0 := by
  rcases DeploymentsDo_cases s ctx opts w with ⟨e, st₁, h₁, h⟩ | ⟨c, st₁, e, st₂, h₁, h₂, h⟩
    | ⟨c, st₁, sl, st₂, h₁, h₂, h⟩
  all_goals
    rw [h]
    simp [newInvocations, releasesCreateCalls, deployRelease]

theorem DeployImageToApp_create_calls (s : Services) (ctx : Context) (app : App)
    (image : Image) (out : EventCh) (w : World) :
    ∀ cr ∈ releasesCreateCalls (newInvocations w (DeployImageToApp s ctx app image out w).2),
      cr.1 = ctx ∧ cr.2.App = app ∧ cr.2.Version = 0 := by
  rcases DeployImageToApp_invocations s ctx app image out w with ⟨e, st₀, h₀, h, hn⟩
    | ⟨st₀, h₀, h, hn⟩
  · rw [hn]
    simp [releasesCreateCalls]
  · rw [hn]
    simpa [releasesCreateCalls] using DeploymentsDo_create_calls s ctx
      { App := app, Image := image, EventCh := out } _

theorem DeployImage_create_calls (s : Services) (ctx : Context) (image : Image)
    (out : EventCh) (w : World) :
    ∀ cr ∈ releasesCreateCalls (newInvocations w (DeployImage s ctx image out w).2),
      cr.1 = ctx ∧ cr.2.Version = 0
      ∧ ∃ st, s.AppsFindOrCreateByRepo image.Repo w.store = (.ok cr.2.App, st) := by
  rcases DeployImage_invocations s ctx image out w with ⟨e, st, h₀, h, hn⟩
    | ⟨app, st, h₀, h, hn⟩
  · rw [hn]
    simp [releasesCreateCalls]
  · rw [hn]
    intro cr hcr
    have hd := DeployImageToApp_create_calls s ctx app image out _ cr
      (by simpa [releasesCreateCalls] using hcr)
    exact ⟨hd.1, hd.2.2, st, by rw [hd.2.1]; exact h₀⟩

theorem sampleServices_findOrCreateIdempotent
    (create : Context → Release → Store → (Option Release × Option GoError) × Store) :
    (sampleServices create).FindOrCreateIdempotent := by
  intro repo st a st₁ h₁ st₂ _ a₂ t h₂
  simp only [sampleServices, sampleAppsFindOrCreateByRepo] at h₁ h₂
  have e₁ : a = { Name := repo } := by
    split at h₁ <;> simp at h₁ <;> exact h₁.1.symm
  have e₂ : a₂ = { Name := repo } := by
    split at h₂ <;> simp at h₂ <;> exact h₂.1.symm
  rw [e₁, e₂]

theorem reaches_trans (s : Services) {st₁ st₂ st₃ : Store} (h₁ : s.Reaches st₁ st₂)
    (h₂ : s.Reaches st₂ st₃) : s.Reaches st₁ st₃ := by
  induction h₂ with
  | refl => exact h₁
  | findOrCreate repo _ ih => exact Services.Reaches.findOrCreate repo ih
  | ensureRepo app repo _ ih => exact Services.Reaches.ensureRepo app repo ih
  | configsCurrent app _ ih => exact Services.Reaches.configsCurrent app ih
  | slugsCreate image ch _ ih => exact Services.Reaches.slugsCreate image ch ih
  | releasesCreate ctx r _ ih => exact Services.Reaches.releasesCreate ctx r ih

/-- The store `DeploymentsDo` leaves is one its collaborators lead to. -/
theorem DeploymentsDo_reaches (s : Services) (ctx : Context) (opts : DeploymentsCreateOpts)
    (w : World) : s.Reaches w.store (DeploymentsDo s ctx opts w).2.store := by
  rcases DeploymentsDo_cases s ctx opts w with ⟨e, st₁, h₁, h⟩ | ⟨c, st₁, e, st₂, h₁, h₂, h⟩
    | ⟨c, st₁, sl, st₂, h₁, h₂, h⟩
  · rw [h]
    have k₁ := Services.Reaches.configsCurrent opts.App (Services.Reaches.refl (s := s) w.store)
    rw [h₁] at k₁
    exact k₁
  · rw [h]
    have k₁ := Services.Reaches.configsCurrent opts.App (Services.Reaches.refl (s := s) w.store)
    rw [h₁] at k₁
    have k₂ := Services.Reaches.slugsCreate opts.Image opts.EventCh k₁
    rw [h₂] at k₂
    exact k₂
  · rw [h]
    have k₁ := Services.Reaches.configsCurrent opts.App (Services.Reaches.refl (s := s) w.store)
    rw [h₁] at k₁
    have k₂ := Services.Reaches.slugsCreate opts.Image opts.EventCh k₁
    rw [h₂] at k₂
    exact Services.Reaches.releasesCreate ctx (deployRelease s opts c sl) k₂

theorem DeployImageToApp_reaches (s : Services) (ctx : Context) (app : App) (image : Image)
    (out : EventCh) (w : World) :
    s.Reaches w.store (DeployImageToApp s ctx app image out w).2.store := by
  have k₀ := Services.Reaches.ensureRepo app image.Repo (Services.Reaches.refl (s := s) w.store)
  rcases DeployImageToApp_cases s ctx app image out w with ⟨e, st₀, h₀, h⟩ | ⟨st₀, h₀, h⟩
  · rw [h]
    rw [h₀] at k₀
    exact k₀
  · rw [h]
    rw [h₀] at k₀
    exact reaches_trans s k₀ (DeploymentsDo_reaches s ctx
      { App := app, Image := image, EventCh := out }
      { store := st₀, trace := w.trace ++ [⟨.AppsEnsureRepo app image.Repo, none⟩] })

theorem sampleServices_failuresWriteNoRecord
    (create : Context → Release → Store → (Option Release × Option GoError) × Store) :
    (sampleServices create).FailuresWriteNoRecord := by
  refine ⟨?_, ?_, ?_, ?_⟩
  · intro repo st
    simp only [sampleServices, sampleAppsFindOrCreateByRepo]
    split <;> rfl
  · intro app repo st
    simp only [sampleServices, sampleAppsEnsureRepo]
    split <;> rfl
  · intro app st
    simp only [sampleServices, sampleConfigsCurrent]
    split <;> rfl
  · intro image ch st e st₁ h
    simp only [sampleServices, sampleSlugsCreateByImage] at h
    split at h <;> simp at h
    rw [h.2]

/-- A failed `DeploymentsDo` leaves the records its collaborators left: those before the call
when it failed before `ReleasesCreate`, and otherwise those `ReleasesCreate` left on the store
of the successful slug build. -/
theorem DeploymentsDo_failure_records (s : Services) (hs : s.FailuresWriteNoRecord)
    (ctx : Context) (opts : DeploymentsCreateOpts) (w : World)
    (R : List (App × Config) × List Slug × List Release) (hR : w.store.records = R)
    (herr : (DeploymentsDo s ctx opts w).1.2 ≠ none) :
    (releasesCreateCalls (newInvocations w (DeploymentsDo s ctx opts w).2) = []
      ∧ (DeploymentsDo s ctx opts w).2.store.records = R)
    ∨ (∃ cx r image ch st₁ st₂,
        releasesCreateCalls (newInvocations w (DeploymentsDo s ctx opts w).2) = [(cx, r)]
        ∧ st₁.records = R
        ∧ s.SlugsCreateByImage image ch st₁ = (.ok r.Slug, st₂)
        ∧ (s.ReleasesCreate cx r st₂).1.2 ≠ none
        ∧ (DeploymentsDo s ctx opts w).2.store = (s.ReleasesCreate cx r st₂).2) := by
  rcases DeploymentsDo_cases s ctx opts w with ⟨e, st₁, h₁, h⟩ | ⟨c, st₁, e, st₂, h₁, h₂, h⟩
    | ⟨c, st₁, sl, st₂, h₁, h₂, h⟩
  · left
    rw [h]
    refine ⟨by simp [newInvocations, releasesCreateCalls], ?_⟩
    have e₁ := hs.2.2.1 opts.App w.store
    rw [h₁] at e₁
    exact e₁.trans hR
  · left
    rw [h]
    refine ⟨by simp [newInvocations, releasesCreateCalls], ?_⟩
    have e₁ := hs.2.2.1 opts.App w.store
    rw [h₁] at e₁
    exact (hs.2.2.2 _ _ _ _ _ h₂).trans (e₁.trans hR)
  · right
    rw [h] at herr ⊢
    have e₁ := hs.2.2.1 opts.App w.store
    rw [h₁] at e₁
    exact ⟨ctx, deployRelease s opts c sl, opts.Image, opts.EventCh, st₁, st₂,
      by simp [newInvocations, releasesCreateCalls], e₁.trans hR, h₂, herr, rfl⟩

theorem DeployImageToApp_failure_records (s : Services) (hs : s.FailuresWriteNoRecord)
    (ctx : Context) (app : App) (image : Image) (out : EventCh) (w : World)
    (R : List (App × Config) × List Slug × List Release) (hR : w.store.records = R)
    (herr : (DeployImageToApp s ctx app image out w).1.2 ≠ none) :
    (releasesCreateCalls (newInvocations w (DeployImageToApp s ctx app image out w).2) = []
      ∧ (DeployImageToApp s ctx app image out w).2.store.records = R)
    ∨ (∃ cx r im ch st₁ st₂,
        releasesCreateCalls (newInvocations w (DeployImageToApp s ctx app image out w).2)
          = [(cx, r)]
        ∧ st₁.records = R
        ∧ s.SlugsCreateByImage im ch st₁ = (.ok r.Slug, st₂)
        ∧ (s.ReleasesCreate cx r st₂).1.2 ≠ none
        ∧ (DeployImageToApp s ctx app image out w).2.store = (s.ReleasesCreate cx r st₂).2) := by
  have e₀ := hs.2.1 app image.Repo w.store
  rcases DeployImageToApp_invocations s ctx app image out w with ⟨e, st₀, h₀, h, hn⟩
    | ⟨st₀, h₀, h, hn⟩
  · left
    rw [hn, h]
    rw [h₀] at e₀
    exact ⟨by simp [releasesCreateCalls], e₀.trans hR⟩
  · rw [hn]
    rw [h] at herr ⊢
    rw [h₀] at e₀
    simpa [releasesCreateCalls] using
      DeploymentsDo_failure_records s hs ctx _ _ R (e₀.trans hR) herr

theorem DeployImage_failure_records (s : Services) (hs : s.FailuresWriteNoRecord)
    (ctx : Context) (image : Image) (out : EventCh) (w : World)
    (R : List (App × Config) × List Slug × List Release) (hR : w.store.records = R)
    (herr : (DeployImage s ctx image out w).1.2 ≠ none) :
    (releasesCreateCalls (newInvocations w (DeployImage s ctx image out w).2) = []
      ∧ (DeployImage s ctx image out w).2.store.records = R)
    ∨ (∃ cx r im ch st₁ st₂,
        releasesCreateCalls (newInvocations w (DeployImage s ctx image out w).2) = [(cx, r)]
        ∧ st₁.records = R
        ∧ s.SlugsCreateByImage im ch st₁ = (.ok r.Slug, st₂)
        ∧ (s.ReleasesCreate cx r st₂).1.2 ≠ none
        ∧ (DeployImage s ctx image out w).2.store = (s.ReleasesCreate cx r st₂).2) := by
  have e₀ := hs.1 image.Repo w.store
  rcases DeployImage_invocations s ctx image out w with ⟨e, st, h₀, h, hn⟩
    | ⟨app, st, h₀, h, hn⟩
  · left
    rw [hn, h]
    rw [h₀] at e₀
    exact ⟨by simp [releasesCreateCalls], e₀.trans hR⟩
  · rw [hn]
    rw [h] at herr ⊢
    rw [h₀] at e₀
    simpa [releasesCreateCalls] using
      DeployImageToApp_failure_records s hs ctx app image out _ R (e₀.trans hR) herr

/-- A `DeploymentsDo` whose context is cancelled on entry, in front of a `ReleasesCreate` that
honours cancellation, returns an error and no release and leaves the releases as they were. -/
theorem DeploymentsDo_cancelled (s : Services) (hh : s.CreateHonoursCancellation)
    (ctx : Context) (hc : ctx.cancelled = true) (opts : DeploymentsCreateOpts) (w : World)
    (R : List Release) (hR : w.store.releases = R) :
    (DeploymentsDo s ctx opts w).1.1 = none
    ∧ (DeploymentsDo s ctx opts w).1.2 ≠ none
    ∧ (s.ReleasesWrittenByCreateOnly → (DeploymentsDo s ctx opts w).2.store.releases = R) := by
  rcases DeploymentsDo_cases s ctx opts w with ⟨e, st₁, h₁, h⟩ | ⟨c, st₁, e, st₂, h₁, h₂, h⟩
    | ⟨c, st₁, sl, st₂, h₁, h₂, h⟩
  · rw [h]
    refine ⟨rfl, by simp, fun hf => ?_⟩
    have e₁ := hf.2.2.1 opts.App w.store
    rw [h₁] at e₁
    exact e₁.trans hR
  · rw [h]
    refine ⟨rfl, by simp, fun hf => ?_⟩
    have e₁ := hf.2.2.1 opts.App w.store
    have e₂ := hf.2.2.2 opts.Image opts.EventCh st₁
    rw [h₁] at e₁
    rw [h₂] at e₂
    exact e₂.trans (e₁.trans hR)
  · rw [h]
    obtain ⟨k₁, k₂, k₃⟩ := hh ctx (deployRelease s opts c sl) st₂ hc
    refine ⟨k₁, k₂, fun hf => ?_⟩
    have e₁ := hf.2.2.1 opts.App w.store
    have e₂ := hf.2.2.2 opts.Image opts.EventCh st₁
    rw [h₁] at e₁
    rw [h₂] at e₂
    simp only [k₃]
    exact e₂.trans (e₁.trans hR)

theorem DeployImageToApp_cancelled (s : Services) (hh : s.CreateHonoursCancellation)
    (ctx : Context) (hc : ctx.cancelled = true) (app : App) (image : Image) (out : EventCh)
    (w : World) (R : List Release) (hR : w.store.releases = R) :
    (DeployImageToApp s ctx app image out w).1.1 = none
    ∧ (DeployImageToApp s ctx app image out w).1.2 ≠ none
    ∧ (s.ReleasesWrittenByCreateOnly →
        (DeployImageToApp s ctx app image out w).2.store.releases = R) := by
  rcases DeployImageToApp_cases s ctx app image out w with ⟨e, st₀, h₀, h⟩ | ⟨st₀, h₀, h⟩
  · rw [h]
    refine ⟨rfl, by simp, fun hf => ?_⟩
    have e₀ := hf.2.1 app image.Repo w.store
    rw [h₀] at e₀
    exact e₀.trans hR
  · rw [h]
    have hd := DeploymentsDo_cancelled s hh ctx hc
      { App := app, Image := image, EventCh := out }
      { store := st₀, trace := w.trace ++ [⟨.AppsEnsureRepo app image.Repo, none⟩] }
      st₀.releases rfl
    refine ⟨hd.1, hd.2.1, fun hf => ?_⟩
    have e₀ := hf.2.1 app image.Repo w.store
    rw [h₀] at e₀
    exact (hd.2.2 hf).trans (e₀.trans hR)

theorem DeployImage_cancelled (s : Services) (hh : s.CreateHonoursCancellation)
    (ctx : Context) (hc : ctx.cancelled = true) (image : Image) (out : EventCh)
    (w : World) (R : List Release) (hR : w.store.releases = R) :
    (DeployImage s ctx image out w).1.1 = none
    ∧ (DeployImage s ctx image out w).1.2 ≠ none
    ∧ (s.ReleasesWrittenByCreateOnly → (DeployImage s ctx image out w).2.store.releases = R) := by
  rcases DeployImage_cases s ctx image out w with ⟨e, st, h₀, h⟩ | ⟨app, st, h₀, h⟩
  · rw [h]
    refine ⟨rfl, by simp, fun hf => ?_⟩
    have e₀ := hf.1 image.Repo w.store
    rw [h₀] at e₀
    exact e₀.trans hR
  · rw [h]
    have hd := DeployImageToApp_cancelled s hh ctx hc app image out
      { store := st, trace := w.trace ++ [⟨.AppsFindOrCreateByRepo image.Repo, none⟩] }
      st.releases rfl
    refine ⟨hd.1, hd.2.1, fun hf => ?_⟩
    have e₀ := hf.1 image.Repo w.store
    rw [h₀] at e₀
    exact (hd.2.2 hf).trans (e₀.trans hR)

theorem cancellableCreate_honours :
    (sampleServices cancellableCreate).CreateHonoursCancellation := by
  intro ctx r st hc
  simp [sampleServices, cancellableCreate, hc]

theorem foldl_max_range' (n : Nat) : (List.range' 1 n).foldl max 0 = n := by
  induction n with
  | zero => rfl
  | succ k ih =>
    rw [List.range'_1_concat, List.foldl_append, ih]
    simp
    omega

theorem highestVersion_of_versions (app : App) (rs : List Release) (n : Nat)
    (h : versionsOf app rs = List.range' 1 n) : highestVersion app rs = n := by
  rw [highestVersion, h, foldl_max_range']

theorem versionsOf_append_singleton (app : App) (rs : List Release) (rel : Release) :
    versionsOf app (rs ++ [rel])
      = versionsOf app rs ++ (if rel.App = app then [rel.Version] else []) := by
  by_cases h : rel.App = app <;> simp [versionsOf, List.filter_append, List.filter, h]

theorem releasesCreateCalls_append (l₁ l₂ : List Invocation) :
    releasesCreateCalls (l₁ ++ l₂) = releasesCreateCalls l₁ ++ releasesCreateCalls l₂ := by
  induction l₁ with
  | nil => rfl
  | cons x l ih =>
    rcases x with ⟨c, e⟩
    cases c <;> simp [releasesCreateCalls, ih]

theorem steps_returned (s : Services) (n : Nat) (res : Option Release × Option GoError)
    (w : World) : Task.steps s n (.returned res) w = (.returned res, w) := by
  induction n with
  | zero => rfl
  | succ k ih => simpa [Task.steps, Task.step] using ih

theorem steps_DeploymentsDo (s : Services) (n : Nat) (ctx : Context)
    (opts : DeploymentsCreateOpts) (w : World) :
    Task.steps s (n + 3) (.DeploymentsDo ctx opts) w
      = (.returned (DeploymentsDo s ctx opts w).1, (DeploymentsDo s ctx opts w).2) := by
  simp only [Task.steps, Task.step, DeploymentsDo]
  rcases h₁ : s.callConfigsCurrent opts.App w with ⟨r₁, w₁⟩
  cases r₁ with
  | error e => simp [steps_returned]
  | ok c =>
    simp only
    rcases h₂ : s.callSlugsCreateByImage opts.Image opts.EventCh w₁ with ⟨r₂, w₂⟩
    cases r₂ with
    | error e => simp [steps_returned]
    | ok sl => simp [steps_returned, deployRelease]

theorem steps_DeployImageToApp (s : Services) (n : Nat) (ctx : Context) (app : App)
    (image : Image) (out : EventCh) (w : World) :
    Task.steps s (n + 4) (.DeployImageToApp ctx app image out) w
      = (.returned (DeployImageToApp s ctx app image out w).1,
         (DeployImageToApp s ctx app image out w).2) := by
  rw [Task.steps]
  simp only [Task.step, DeployImageToApp]
  rcases h₀ : s.callAppsEnsureRepo app image.Repo w with ⟨r₀, w₀⟩
  cases r₀ with
  | some e => simp [steps_returned]
  | none => simpa using steps_DeploymentsDo s n ctx _ w₀

theorem steps_DeployImage (s : Services) (n : Nat) (ctx : Context)
    (image : Image) (out : EventCh) (w : World) :
    Task.steps s (n + 5) (.DeployImage ctx image out) w
      = (.returned (DeployImage s ctx image out w).1, (DeployImage s ctx image out w).2) := by
  rw [Task.steps]
  simp only [Task.step, DeployImage]
  rcases h₀ : s.callAppsFindOrCreateByRepo image.Repo w with ⟨r₀, w₀⟩
  cases r₀ with
  | error e => simp [steps_returned]
  | ok a => simpa using steps_DeployImageToApp s n ctx a image out w₀

theorem steps_task (s : Services) (req : DeployRequest) (w : World) :
    Task.steps s 5 req.task w = (.returned (req.run s w).1, (req.run s w).2) := by
  cases req with
  | DeploymentsDo ctx opts => exact steps_DeploymentsDo s 2 ctx opts w
  | DeployImageToApp ctx app image out => exact steps_DeployImageToApp s 1 ctx app image out w
  | DeployImage ctx image out => exact steps_DeployImage s 0 ctx image out w


theorem createCount_append (app : App) (l₁ l₂ : List Invocation) :
    createCount app (l₁ ++ l₂) = createCount app l₁ + createCount app l₂ := by
  simp [createCount, releasesCreateCalls_append]

/-- The three ways the ledger answers. -/
theorem ledgerCreate_cases
    (scheduler : Context → Release → List (App × String × Nat) → Option GoError)
    (ctx : Context) (r : Release) (st : Store) :
    (ctx.cancelled = true
      ∧ ledgerCreate scheduler ctx r st = ((none, some ErrCanceled), st))
    ∨ (ctx.cancelled = false
      ∧ scheduler ctx (nextRelease r st StatusPending) (ensureFormation r.App st.formations)
          = none
      ∧ ledgerCreate scheduler ctx r st
        = ((some (nextRelease r st StatusSuccess), none),
           st.retain (nextRelease r st StatusSuccess)))
    ∨ (∃ e, ctx.cancelled = false
      ∧ scheduler ctx (nextRelease r st StatusPending) (ensureFormation r.App st.formations)
          = some e
      ∧ ledgerCreate scheduler ctx r st
        = ((none, some e), st.retain (nextRelease r st StatusFailed))) := by
  cases hc : ctx.cancelled with
  | true => left; simp [ledgerCreate, hc]
  | false =>
    right
    cases hs : scheduler ctx (nextRelease r st StatusPending)
        (ensureFormation r.App st.formations) with
    | none => left; simp [ledgerCreate, hc, hs]
    | some e => right; exact ⟨e, rfl, rfl, by simp [ledgerCreate, hc, hs]⟩

theorem stepEffect_of_other (t t₁ : Task) (w : World) (st : Store) (c : Call)
    (e : Option GoError) (hc : c.stage ≠ 4) (hst : st.releases = w.store.releases)
    (hres : ∀ res, t₁ = .returned res → res.1 = none) :
    StepEffect t w (t₁, { store := st, trace := w.trace ++ [⟨c, e⟩] }) := by
  have hn : newInvocations w { store := st, trace := w.trace ++ [⟨c, e⟩] } = [⟨c, e⟩] :=
    newInvocations_append w st _
  have hcalls : releasesCreateCalls [(⟨c, e⟩ : Invocation)] = [] := by
    cases c <;> simp [releasesCreateCalls, Call.stage] at hc ⊢
  refine ⟨by rw [hn], ?_, Or.inl ⟨?_, hst, fun res h => Or.inr (hres res h)⟩⟩
  · rw [hn, hcalls]
    simp
  · intro a
    rw [hn, createCount, hcalls]
    rfl

theorem task_step_ledger (s : Services)
    (scheduler : Context → Release → List (App × String × Nat) → Option GoError)
    (hcreate : s.ReleasesCreate = ledgerCreate scheduler) (hf : s.ReleasesWrittenByCreateOnly)
    (t : Task) (w : World) : StepEffect t w (t.step s w) := by
  cases t with
  | DeployImage ctx image out =>
    have e₀ := hf.1 image.Repo w.store
    rcases h₀ : s.AppsFindOrCreateByRepo image.Repo w.store with ⟨r₀, st⟩
    rw [h₀] at e₀
    simp only [Task.step, Services.callAppsFindOrCreateByRepo, World.record, h₀]
    cases r₀ with
    | error e => exact stepEffect_of_other _ _ w st _ _ (by simp [Call.stage]) e₀ (by simp)
    | ok a => exact stepEffect_of_other _ _ w st _ _ (by simp [Call.stage]) e₀ (by simp)
  | DeployImageToApp ctx app image out =>
    have e₀ := hf.2.1 app image.Repo w.store
    rcases h₀ : s.AppsEnsureRepo app image.Repo w.store with ⟨r₀, st⟩
    rw [h₀] at e₀
    simp only [Task.step, Services.callAppsEnsureRepo, World.record, h₀]
    cases r₀ with
    | some e => exact stepEffect_of_other _ _ w st _ _ (by simp [Call.stage]) e₀ (by simp)
    | none => exact stepEffect_of_other _ _ w st _ _ (by simp [Call.stage]) e₀ (by simp)
  | DeploymentsDo ctx opts =>
    have e₀ := hf.2.2.1 opts.App w.store
    rcases h₀ : s.ConfigsCurrent opts.App w.store with ⟨r₀, st⟩
    rw [h₀] at e₀
    simp only [Task.step, Services.callConfigsCurrent, World.record, h₀]
    cases r₀ with
    | error e => exact stepEffect_of_other _ _ w st _ _ (by simp [Call.stage]) e₀ (by simp)
    | ok a => exact stepEffect_of_other _ _ w st _ _ (by simp [Call.stage]) e₀ (by simp)
  | slugsCreate ctx opts config =>
    have e₀ := hf.2.2.2 opts.Image opts.EventCh w.store
    rcases h₀ : s.SlugsCreateByImage opts.Image opts.EventCh w.store with ⟨r₀, st⟩
    rw [h₀] at e₀
    simp only [Task.step, Services.callSlugsCreateByImage, World.record, h₀]
    cases r₀ with
    | error e => exact stepEffect_of_other _ _ w st _ _ (by simp [Call.stage]) e₀ (by simp)
    | ok a => exact stepEffect_of_other _ _ w st _ _ (by simp [Call.stage]) e₀ (by simp)
  | releasesCreate ctx opts config slug =>
    simp only [Task.step, Services.callReleasesCreate, World.record, hcreate]
    have hn : ∀ (st : Store) (e : Option GoError),
        newInvocations w { store := st, trace := w.trace
          ++ [⟨.ReleasesCreate ctx (deployRelease s opts config slug), e⟩] }
        = [⟨.ReleasesCreate ctx (deployRelease s opts config slug), e⟩] :=
      fun st e => newInvocations_append w st _
    rcases ledgerCreate_cases scheduler ctx (deployRelease s opts config slug) w.store with
      ⟨hc, h⟩ | ⟨hc, _, h⟩ | ⟨e, hc, _, h⟩
    · rw [h]
      refine ⟨by rw [hn], ?_, Or.inl ⟨?_, rfl, fun res hres => Or.inr ?_⟩⟩
      · rw [hn]; simp [releasesCreateCalls, deployRelease]
      · intro a
        rw [hn]; simp [createCount, releasesCreateCalls, hc]
      · simp at hres
        rw [← hres]
    · rw [h]
      refine ⟨by rw [hn], ?_, Or.inr ⟨nextRelease (deployRelease s opts config slug) w.store
        StatusSuccess, ?_, rfl, rfl, Or.inl rfl, _, rfl, Or.inl ⟨rfl, rfl⟩⟩⟩
      · rw [hn]; simp [releasesCreateCalls, deployRelease]
      · intro a
        rw [hn]
        by_cases ha : opts.App = a <;>
          simp [createCount, releasesCreateCalls, hc, nextRelease, deployRelease, ha]
    · rw [h]
      refine ⟨by rw [hn], ?_, Or.inr ⟨nextRelease (deployRelease s opts config slug) w.store
        StatusFailed, ?_, rfl, rfl, Or.inr rfl, _, rfl, Or.inr rfl⟩⟩
      · rw [hn]; simp [releasesCreateCalls, deployRelease]
      · intro a
        rw [hn]
        by_cases ha : opts.App = a <;>
          simp [createCount, releasesCreateCalls, hc, nextRelease, deployRelease, ha]
  | returned res =>
    refine ⟨by simp [Task.step, newInvocations], by simp [Task.step, newInvocations,
      releasesCreateCalls], Or.inl ⟨?_, rfl, fun r h => Or.inl ?_⟩⟩
    · intro a
      simp [Task.step, newInvocations, createCount, releasesCreateCalls]
    · simp only [Task.step] at h
      exact h

theorem ledgerInv_of_step (w₀ w : World) (t : Task) (r : Task × World)
    (h : LedgerInv w₀ w) (he : StepEffect t w r) : LedgerInv w₀ r.2 := by
  obtain ⟨ht, hv, hcases⟩ := he
  have hn : newInvocations w₀ r.2 = newInvocations w₀ w ++ newInvocations w r.2 := by
    rw [newInvocations, ht, h.trace_eq]
    simp
  refine ⟨?_, ?_, ?_, ?_⟩
  · rw [hn, ht, h.trace_eq]
    simp
  · intro a
    rw [hn, createCount_append]
    rcases hcases with ⟨hc, hr, _⟩ | ⟨rel, hc, hr, hV, _, _⟩
    · rw [hr, h.versions a, hc a]
      rfl
    · rw [hr, versionsOf_append_singleton, h.versions a, hc a]
      by_cases ha : rel.App = a
      · have hh := highestVersion_of_versions a w.store.releases _ (h.versions a)
        rw [ha] at hV
        simp only [ha, if_true]
        rw [List.range'_1_concat, hV, hh]
      · simp [ha]
  · intro x hx
    rcases hcases with ⟨_, hr, _⟩ | ⟨rel, _, hr, _, hS, _⟩
    · rw [hr] at hx
      exact h.statuses x hx
    · rw [hr, List.mem_append, List.mem_singleton] at hx
      rcases hx with hx | hx
      · exact h.statuses x hx
      · rw [hx]; exact hS
  · intro cr hcr
    rw [hn, releasesCreateCalls_append, List.mem_append] at hcr
    rcases hcr with hcr | hcr
    · exact h.unversioned cr hcr
    · exact hv cr hcr

theorem resultsInv_of_step (ts : List Task) (w : World) (i : Nat) (t : Task)
    (r : Task × World) (hi : ts[i]? = some t) (h : ResultsInv ts w)
    (he : StepEffect t w r) : ResultsInv (ts.set i r.1) r.2 := by
  obtain ⟨_, _, hcases⟩ := he
  have hmem : t ∈ ts := List.getElem?_mem hi
  have hkeep : ∀ rel, rel ∈ w.store.releases → rel ∈ r.2.store.releases := by
    intro rel hrel
    rcases hcases with ⟨_, hr, _⟩ | ⟨rel₁, _, hr, _⟩
    · rw [hr]; exact hrel
    · rw [hr]; exact List.mem_append_left _ hrel
  have hold : ∀ res, Task.returned res ∈ ts → ∀ rel, res.1 = some rel →
      res.2 = none ∧ rel ∈ r.2.store.releases ∧ rel.Status = StatusSuccess := by
    intro res hres rel hrel
    obtain ⟨k₁, k₂, k₃⟩ := h res hres rel hrel
    exact ⟨k₁, hkeep rel k₂, k₃⟩
  intro res hres rel hrel
  rcases List.mem_or_eq_of_mem_set hres with hin | heq
  · exact hold res hin rel hrel
  · rcases hcases with ⟨_, _, hret⟩ | ⟨rel₁, _, hr, _, _, res₁, hres₁, hcase⟩
    · rcases hret res heq.symm with ht | hnone
      · exact hold res (ht ▸ hmem) rel hrel
      · rw [hnone] at hrel
        exact absurd hrel (by simp)
    · rw [hres₁] at heq
      have hres_eq : res = res₁ := Task.returned.inj heq
      rcases hcase with ⟨hpair, hS⟩ | hnone
      · rw [hres_eq, hpair] at hrel
        have hrel_eq : rel₁ = rel := Option.some.inj hrel
        rw [hres_eq, hpair, ← hrel_eq]
        exact ⟨rfl, by rw [hr]; simp, hS⟩
      · rw [hres_eq, hnone] at hrel
        exact absurd hrel (by simp)

theorem stepAt_inv (s : Services)
    (scheduler : Context → Release → List (App × String × Nat) → Option GoError)
    (hcreate : s.ReleasesCreate = ledgerCreate scheduler) (hf : s.ReleasesWrittenByCreateOnly)
    (w₀ : World) (i : Nat) (ts : List Task) (w : World)
    (h : LedgerInv w₀ w ∧ ResultsInv ts w) :
    LedgerInv w₀ (stepAt s i ts w).2 ∧ ResultsInv (stepAt s i ts w).1 (stepAt s i ts w).2 := by
  unfold stepAt
  cases hi : ts[i]? with
  | none => exact h
  | some t =>
    have he := task_step_ledger s scheduler hcreate hf t w
    exact ⟨ledgerInv_of_step w₀ w t _ h.1 he, resultsInv_of_step ts w i t _ hi h.2 he⟩

theorem runSchedule_inv (s : Services)
    (scheduler : Context → Release → List (App × String × Nat) → Option GoError)
    (hcreate : s.ReleasesCreate = ledgerCreate scheduler) (hf : s.ReleasesWrittenByCreateOnly)
    (w₀ : World) (schedule : List Nat) :
    ∀ (ts : List Task) (w : World), LedgerInv w₀ w ∧ ResultsInv ts w →
      LedgerInv w₀ (runSchedule s schedule ts w).2
      ∧ ResultsInv (runSchedule s schedule ts w).1 (runSchedule s schedule ts w).2 := by
  induction schedule with
  | nil => intro ts w h; exact h
  | cons i rest ih =>
    intro ts w h
    exact ih _ _ (stepAt_inv s scheduler hcreate hf w₀ i ts w h)

theorem ledgerInv_init (w : World) (h : w.store.releases = []) : LedgerInv w w := by
  refine ⟨?_, ?_, ?_, ?_⟩
  · simp [newInvocations]
  · intro a
    simp [newInvocations, createCount, releasesCreateCalls, versionsOf, h]
  · simp [h]
  · simp [newInvocations, releasesCreateCalls]

theorem resultsInv_init (reqs : List DeployRequest) (w : World) :
    ResultsInv (reqs.map DeployRequest.task) w := by
  intro res hres
  rw [List.mem_map] at hres
  obtain ⟨req, _, hreq⟩ := hres
  cases req <;> simp [DeployRequest.task] at hreq

theorem version_at_position (pre : List Nat) (x : Nat) (post : List Nat) :
    ∀ (k n : Nat), pre ++ x :: post = List.range' k n → x = k + pre.length := by
  induction pre with
  | nil =>
    intro k n h
    cases n with
    | zero => simp at h
    | succ m =>
      simp [List.range'] at h
      exact h.1
  | cons y l ih =>
    intro k n h
    cases n with
    | zero => simp at h
    | succ m =>
      simp only [List.range', List.cons_append, List.cons.injEq] at h
      have := ih (k + 1) m h.2
      simp only [List.length_cons]
      omega

theorem length_success_add_failed (l : List Release)
    (h : ∀ r ∈ l, r.Status = StatusSuccess ∨ r.Status = StatusFailed) :
    l.length = (l.filter (fun r => r.Status = StatusSuccess)).length
      + (l.filter (fun r => r.Status = StatusFailed)).length := by
  have hne : StatusSuccess ≠ StatusFailed := by decide
  have hne' : StatusFailed ≠ StatusSuccess := by decide
  induction l with
  | nil => rfl
  | cons r l ih =>
    have ih' := ih (fun x hx => h x (List.mem_cons_of_mem _ hx))
    rcases h r (List.mem_cons_self _ _) with hs | hf
    · simp only [List.filter_cons, hs, hne, decide_True, decide_False, if_true,
        List.length_cons, Bool.false_eq_true, if_false]
      omega
    · simp only [List.filter_cons, hf, hne', decide_True, decide_False, if_true,
        List.length_cons, Bool.false_eq_true, if_false]
      omega

/-- In a ledger that satisfies the invariant, the version of a release is 1 + the number of
releases created before it for its application, successful or failed. -/
theorem ledgerInv_position (w₀ w : World) (h : LedgerInv w₀ w) (a : App)
    (pre : List Release) (rel : Release) (post : List Release)
    (hsplit : w.store.releases.filter (fun r => r.App = a) = pre ++ rel :: post) :
    rel.Version = 1 + (pre.filter (fun r => r.Status = StatusSuccess)).length
      + (pre.filter (fun r => r.Status = StatusFailed)).length := by
  have hv := h.versions a
  rw [versionsOf, hsplit] at hv
  simp only [List.map_append, List.map_cons] at hv
  have hpos := version_at_position _ _ _ _ _ hv
  have hpre : ∀ r ∈ pre, r.Status = StatusSuccess ∨ r.Status = StatusFailed := by
    intro r hr
    have hmem : r ∈ w.store.releases.filter (fun r => r.App = a) := by
      rw [hsplit]; exact List.mem_append_left _ hr
    exact h.statuses r (List.mem_of_mem_filter hmem)
  have hlen := length_success_add_failed pre hpre
  rw [List.length_map] at hpos
  omega

theorem runSchedule_append (s : Services) (sch₁ sch₂ : List Nat) :
    ∀ (ts : List Task) (w : World),
      runSchedule s (sch₁ ++ sch₂) ts w
        = runSchedule s sch₂ (runSchedule s sch₁ ts w).1 (runSchedule s sch₁ ts w).2 := by
  induction sch₁ with
  | nil => intro ts w; rfl
  | cons i rest ih => intro ts w; exact ih _ _

theorem runSchedule_replicate (s : Services) (done post : List Task) (n : Nat) :
    ∀ (t : Task) (w : World),
      runSchedule s (List.replicate n done.length) (done ++ t :: post) w
        = (done ++ (Task.steps s n t w).1 :: post, (Task.steps s n t w).2) := by
  induction n with
  | zero => intro t w; rfl
  | succ m ih =>
    intro t w
    have hget : (done ++ t :: post)[done.length]? = some t := by
      rw [List.getElem?_append_right (Nat.le_refl _)]
      simp
    have hstep : stepAt s done.length (done ++ t :: post) w
        = (done ++ (t.step s w).1 :: post, (t.step s w).2) := by
      unfold stepAt
      rw [hget]
      simp
    simp only [List.replicate, runSchedule, hstep, Task.steps]
    exact ih _ _

/-- Running deploy requests one after the other is running them under the sequential
schedule. -/
theorem runSchedule_sequential (s : Services) (reqs : List DeployRequest) :
    ∀ (done : List Task) (w : World),
      runSchedule s (sequentialSchedule done.length reqs.length)
          (done ++ reqs.map DeployRequest.task) w
        = (done ++ (deployResults s reqs w).map Task.returned, runDeploys s reqs w) := by
  induction reqs with
  | nil => intro done w; rfl
  | cons req rest ih =>
    intro done w
    simp only [List.length_cons, sequentialSchedule, List.map_cons, runSchedule_append,
      runSchedule_replicate, steps_task, deployResults, runDeploys]
    have := ih (done ++ [Task.returned (req.run s w).1]) (req.run s w).2
    simpa using this

/-- C1: when `ConfigsCurrent(app)` succeeds with config `c` and `SlugsCreateByImage(image,
eventCh)` succeeds with slug `sl`, `DeploymentsDo` calls `ReleasesCreate` exactly once, with the
release of the given app, config `c`, slug `sl` and description `"Deploy " ++ image.String()`
(the other fields at their zero value), and returns exactly what `ReleasesCreate` returns,
leaving the store `ReleasesCreate` left. -/
theorem C1_DeploymentsDo_creates_release (s : Services) (ctx : Context)
    (opts : DeploymentsCreateOpts) (w : World) (c : Config) (st₁ : Store) (sl : Slug)
    (st₂ : Store)
    (hc : s.ConfigsCurrent opts.App w.store = (.ok c, st₁))
    (hs : s.SlugsCreateByImage opts.Image opts.EventCh st₁ = (.ok sl, st₂)) :
    releasesCreateCalls (newInvocations w (DeploymentsDo s ctx opts w).2)
      = [(ctx, { App := opts.App, Config := c, Slug := sl,
                 Description := "Deploy " ++ s.ImageString opts.Image,
                 Version := 0, Status := "" })]
    ∧ (DeploymentsDo s ctx opts w).1
      = (s.ReleasesCreate ctx
          { App := opts.App, Config := c, Slug := sl,
            Description := "Deploy " ++ s.ImageString opts.Image,
            Version := 0, Status := "" } st₂).1
    ∧ (DeploymentsDo s ctx opts w).2.store
      = (s.ReleasesCreate ctx
          { App := opts.App, Config := c, Slug := sl,
            Description := "Deploy " ++ s.ImageString opts.Image,
            Version := 0, Status := "" } st₂).2 := by
  simp [DeploymentsDo, Services.callConfigsCurrent, Services.callSlugsCreateByImage,
    Services.callReleasesCreate, hc, hs, World.record, errOf, newInvocations,
    releasesCreateCalls]

/-- C1 at the first deploy of the test image to `acme-inc` in an empty store. -/
theorem C1_DeploymentsDo_creates_release_witness :
    (DeploymentsDo (sampleServices (ledgerCreate acceptAll)) ⟨false⟩ ⟨acmeApp, acmeImage, ⟨0⟩⟩
        emptyWorld).1
      = (some { App := acmeApp, Config := { ID := "", Vars := [] },
                Slug := { ID := "ejholmes/acme-inc:ec238137", Image := acmeImage },
                Description := "Deploy ejholmes/acme-inc:ec238137",
                Version := 1, Status := "success" }, none) := by
  have h := (C1_DeploymentsDo_creates_release (sampleServices (ledgerCreate acceptAll)) ⟨false⟩
    ⟨acmeApp, acmeImage, ⟨0⟩⟩ emptyWorld { ID := "", Vars := [] } emptyStore
    { ID := "ejholmes/acme-inc:ec238137", Image := acmeImage }
    { emptyStore with slugs := [{ ID := "ejholmes/acme-inc:ec238137", Image := acmeImage }] }
    rfl rfl).2.1
  rw [h]
  decide

/-- C2: atomicity on build failure.  In a deploy through any of the three entry points
(`DeploymentsDo`, `DeployImageToApp`, `DeployImage`), if `SlugsCreateByImage` returns an error
then `ReleasesCreate` is never called and the returned release is nil; so, the release table
being written by `ReleasesCreate` only, the releases after the call are those before it. -/
theorem C2_build_failure_no_release (s : Services) (req : DeployRequest) (w : World)
    (hfail : ∃ inv ∈ newInvocations w (req.run s w).2, inv.call.stage = 3 ∧ inv.err ≠ none) :
    releasesCreateCalls (newInvocations w (req.run s w).2) = []
    ∧ (req.run s w).1.1 = none
    ∧ (s.ReleasesWrittenByCreateOnly → (req.run s w).2.store.releases = w.store.releases) := by
  cases req with
  | DeploymentsDo ctx opts => exact DeploymentsDo_build_failure s ctx opts w hfail
  | DeployImageToApp ctx app image out =>
    exact DeployImageToApp_build_failure s ctx app image out w hfail
  | DeployImage ctx image out => exact DeployImage_build_failure s ctx image out w hfail

/-- C2 at the deploy of an image without identifier, which the sample slug builder rejects. -/
theorem C2_build_failure_no_release_witness :
    (DeployImage (sampleServices (ledgerCreate acceptAll)) ⟨false⟩
        { Repo := "ejholmes/acme-inc", ID := "" } ⟨0⟩ emptyWorld).1.1 = none
    ∧ (DeployImage (sampleServices (ledgerCreate acceptAll)) ⟨false⟩
        { Repo := "ejholmes/acme-inc", ID := "" } ⟨0⟩ emptyWorld).2.store.releases = [] := by
  have h := C2_build_failure_no_release (sampleServices (ledgerCreate acceptAll))
    (.DeployImage ⟨false⟩ { Repo := "ejholmes/acme-inc", ID := "" } ⟨0⟩) emptyWorld
    ⟨⟨.SlugsCreateByImage { Repo := "ejholmes/acme-inc", ID := "" } ⟨0⟩,
        some (GoError.ValidationError "image has no id")⟩, by decide, by decide⟩
  exact ⟨h.2.1, h.2.2 (sampleServices_releasesWrittenByCreateOnly _)⟩

/-- C3: error propagation in `DeployImage`.  Each collaborator is called on the store the
previous one left, in the order `AppsFindOrCreateByRepo`, `AppsEnsureRepo`, `ConfigsCurrent`,
`SlugsCreateByImage`, `ReleasesCreate`: if one of the first four returns an error, `DeployImage`
returns exactly that error with a nil release and calls none of the collaborators after it; if
all four succeed it calls `ReleasesCreate` and returns its pair, hence its error.  So the
returned error is non-nil if and only if one of the collaborators called returned one, it is
the first such error, and the failing call is the last one made. -/
theorem C3_DeployImage_error_propagation (s : Services) (ctx : Context) (image : Image)
    (out : EventCh) (w : World) :
    (∀ e st, s.AppsFindOrCreateByRepo image.Repo w.store = (.error e, st) →
      DeployImage s ctx image out w
        = ((none, some e),
           { store := st,
             trace := w.trace ++ [⟨.AppsFindOrCreateByRepo image.Repo, some e⟩] }))
    ∧ (∀ a st e st₀, s.AppsFindOrCreateByRepo image.Repo w.store = (.ok a, st) →
      s.AppsEnsureRepo a image.Repo st = (some e, st₀) →
      DeployImage s ctx image out w
        = ((none, some e),
           { store := st₀,
             trace := w.trace ++ [⟨.AppsFindOrCreateByRepo image.Repo, none⟩,
               ⟨.AppsEnsureRepo a image.Repo, some e⟩] }))
    ∧ (∀ a st st₀ e st₁, s.AppsFindOrCreateByRepo image.Repo w.store = (.ok a, st) →
      s.AppsEnsureRepo a image.Repo st = (none, st₀) →
      s.ConfigsCurrent a st₀ = (.error e, st₁) →
      DeployImage s ctx image out w
        = ((none, some e),
           { store := st₁,
             trace := w.trace ++ [⟨.AppsFindOrCreateByRepo image.Repo, none⟩,
               ⟨.AppsEnsureRepo a image.Repo, none⟩, ⟨.ConfigsCurrent a, some e⟩] }))
    ∧ (∀ a st st₀ c st₁ e st₂, s.AppsFindOrCreateByRepo image.Repo w.store = (.ok a, st) →
      s.AppsEnsureRepo a image.Repo st = (none, st₀) →
      s.ConfigsCurrent a st₀ = (.ok c, st₁) →
      s.SlugsCreateByImage image out st₁ = (.error e, st₂) →
      DeployImage s ctx image out w
        = ((none, some e),
           { store := st₂,
             trace := w.trace ++ [⟨.AppsFindOrCreateByRepo image.Repo, none⟩,
               ⟨.AppsEnsureRepo a image.Repo, none⟩, ⟨.ConfigsCurrent a, none⟩,
               ⟨.SlugsCreateByImage image out, some e⟩] }))
    ∧ (∀ a st st₀ c st₁ sl st₂, s.AppsFindOrCreateByRepo image.Repo w.store = (.ok a, st) →
      s.AppsEnsureRepo a image.Repo st = (none, st₀) →
      s.ConfigsCurrent a st₀ = (.ok c, st₁) →
      s.SlugsCreateByImage image out st₁ = (.ok sl, st₂) →
      DeployImage s ctx image out w
        = ((s.ReleasesCreate ctx
              { App := a, Config := c, Slug := sl,
                Description := "Deploy " ++ s.ImageString image, Version := 0, Status := "" }
              st₂).1,
           { store := (s.ReleasesCreate ctx
                { App := a, Config := c, Slug := sl,
                  Description := "Deploy " ++ s.ImageString image, Version := 0, Status := "" }
                st₂).2,
             trace := w.trace ++ [⟨.AppsFindOrCreateByRepo image.Repo, none⟩,
               ⟨.AppsEnsureRepo a image.Repo, none⟩, ⟨.ConfigsCurrent a, none⟩,
               ⟨.SlugsCreateByImage image out, none⟩,
               ⟨.ReleasesCreate ctx
                  { App := a, Config := c, Slug := sl,
                    Description := "Deploy " ++ s.ImageString image, Version := 0,
                    Status := "" },
                (s.ReleasesCreate ctx
                  { App := a, Config := c, Slug := sl,
                    Description := "Deploy " ++ s.ImageString image, Version := 0,
                    Status := "" } st₂).1.2⟩] }))
    ∧ (DeployImage s ctx image out w).2.trace
      = w.trace ++ newInvocations w (DeployImage s ctx image out w).2
    ∧ (newInvocations w (DeployImage s ctx image out w).2).map (fun inv => inv.call.stage)
      = List.range (newInvocations w (DeployImage s ctx image out w).2).length
    ∧ (newInvocations w (DeployImage s ctx image out w).2).length ≤ 5
    ∧ (∃ rest, newInvocations w (DeployImage s ctx image out w).2
        = ⟨.AppsFindOrCreateByRepo image.Repo,
            errOf (s.AppsFindOrCreateByRepo image.Repo w.store).1⟩ :: rest)
    ∧ ((DeployImage s ctx image out w).1.2 ≠ none
        ↔ ∃ inv ∈ newInvocations w (DeployImage s ctx image out w).2, inv.err ≠ none)
    ∧ (DeployImage s ctx image out w).1.2
      = firstError (newInvocations w (DeployImage s ctx image out w).2)
    ∧ StopsAtFirstError (newInvocations w (DeployImage s ctx image out w).2) := by
  have h := DeployImage_pipeline s ctx image out w
  refine ⟨?_, ?_, ?_, ?_, ?_, h.trace_eq, ?_, ?_, ?_, ?_, h.err_eq, h.stops⟩
  · intro e st h₀
    simp [DeployImage, Services.callAppsFindOrCreateByRepo, h₀, World.record, errOf]
  · intro a st e st₀ h₀ h₁
    simp [DeployImage, DeployImageToApp, Services.callAppsFindOrCreateByRepo,
      Services.callAppsEnsureRepo, h₀, h₁, World.record, errOf]
  · intro a st st₀ e st₁ h₀ h₁ h₂
    simp [DeployImage, DeployImageToApp, DeploymentsDo, Services.callAppsFindOrCreateByRepo,
      Services.callAppsEnsureRepo, Services.callConfigsCurrent, h₀, h₁, h₂, World.record, errOf]
  · intro a st st₀ c st₁ e st₂ h₀ h₁ h₂ h₃
    simp [DeployImage, DeployImageToApp, DeploymentsDo, Services.callAppsFindOrCreateByRepo,
      Services.callAppsEnsureRepo, Services.callConfigsCurrent,
      Services.callSlugsCreateByImage, h₀, h₁, h₂, h₃, World.record, errOf]
  · intro a st st₀ c st₁ sl st₂ h₀ h₁ h₂ h₃
    simp [DeployImage, DeployImageToApp, DeploymentsDo, Services.callAppsFindOrCreateByRepo,
      Services.callAppsEnsureRepo, Services.callConfigsCurrent,
      Services.callSlugsCreateByImage, Services.callReleasesCreate, h₀, h₁, h₂, h₃,
      World.record, errOf]
  · rw [h.stages, List.range_eq_range']
  · have := h.bound
    omega
  · rcases DeployImage_invocations s ctx image out w with ⟨e, st, h₀, _, hn⟩
      | ⟨app, st, h₀, _, hn⟩
    · exact ⟨[], by rw [hn, h₀]; rfl⟩
    · exact ⟨_, by rw [hn, h₀]; rfl⟩
  · rw [h.err_eq]
    exact firstError_ne_none_iff _

/-- C3 at the deploy of an image without identifier: the application is resolved and linked,
the config is fetched, the sample slug builder fails, and `DeployImage` returns its error
without calling `ReleasesCreate`. -/
theorem C3_DeployImage_error_propagation_witness :
    DeployImage (sampleServices (ledgerCreate acceptAll)) ⟨false⟩
        { Repo := "ejholmes/acme-inc", ID := "" } ⟨0⟩ emptyWorld
      = ((none, some (GoError.ValidationError "image has no id")),
         { store := { emptyStore with apps := [(acmeApp, some "ejholmes/acme-inc")] },
           trace := emptyWorld.trace ++ [⟨.AppsFindOrCreateByRepo "ejholmes/acme-inc", none⟩,
             ⟨.AppsEnsureRepo acmeApp "ejholmes/acme-inc", none⟩,
             ⟨.ConfigsCurrent acmeApp, none⟩,
             ⟨.SlugsCreateByImage { Repo := "ejholmes/acme-inc", ID := "" } ⟨0⟩,
               some (GoError.ValidationError "image has no id")⟩] }) :=
  (C3_DeployImage_error_propagation (sampleServices (ledgerCreate acceptAll)) ⟨false⟩
    { Repo := "ejholmes/acme-inc", ID := "" } ⟨0⟩ emptyWorld).2.2.2.1
    acmeApp { emptyStore with apps := [(acmeApp, none)] }
    { emptyStore with apps := [(acmeApp, some "ejholmes/acme-inc")] }
    { ID := "", Vars := [] }
    { emptyStore with apps := [(acmeApp, some "ejholmes/acme-inc")] }
    (GoError.ValidationError "image has no id")
    { emptyStore with apps := [(acmeApp, some "ejholmes/acme-inc")] }
    rfl rfl rfl rfl

/-- C5: repository linkage before build.  `DeployImageToApp` first calls
`AppsEnsureRepo(app, image.Repo)`, and every other call it makes is a later call of
`ConfigsCurrent`, `SlugsCreateByImage` or `ReleasesCreate` (so `AppsEnsureRepo` is called exactly
once, before those three); if `AppsEnsureRepo` fails no other collaborator is called, the store
is the one `AppsEnsureRepo` left and the error is returned with a nil release.  `DeployImage`
does the same after `AppsFindOrCreateByRepo` returned the application. -/
theorem C5_ensure_repo_first (s : Services) (ctx : Context) (app : App) (image : Image)
    (out : EventCh) (w : World) :
    (∃ rest,
      newInvocations w (DeployImageToApp s ctx app image out w).2
        = ⟨.AppsEnsureRepo app image.Repo, (s.AppsEnsureRepo app image.Repo w.store).1⟩ :: rest
      ∧ (∀ inv ∈ rest, 2 ≤ inv.call.stage)
      ∧ ((s.AppsEnsureRepo app image.Repo w.store).1 ≠ none →
          rest = []
          ∧ (DeployImageToApp s ctx app image out w).2.store
              = (s.AppsEnsureRepo app image.Repo w.store).2
          ∧ (DeployImageToApp s ctx app image out w).1
              = (none, (s.AppsEnsureRepo app image.Repo w.store).1)))
    ∧ (∀ a st, s.AppsFindOrCreateByRepo image.Repo w.store = (.ok a, st) →
        ∃ rest,
          newInvocations w (DeployImage s ctx image out w).2
            = ⟨.AppsFindOrCreateByRepo image.Repo, none⟩
              :: ⟨.AppsEnsureRepo a image.Repo, (s.AppsEnsureRepo a image.Repo st).1⟩ :: rest
          ∧ (∀ inv ∈ rest, 2 ≤ inv.call.stage)
          ∧ ((s.AppsEnsureRepo a image.Repo st).1 ≠ none →
              rest = []
              ∧ (DeployImage s ctx image out w).2.store = (s.AppsEnsureRepo a image.Repo st).2
              ∧ (DeployImage s ctx image out w).1
                  = (none, (s.AppsEnsureRepo a image.Repo st).1))) := by
  have key : ∀ (app : App) (w : World), ∃ rest,
      newInvocations w (DeployImageToApp s ctx app image out w).2
        = ⟨.AppsEnsureRepo app image.Repo, (s.AppsEnsureRepo app image.Repo w.store).1⟩ :: rest
      ∧ (∀ inv ∈ rest, 2 ≤ inv.call.stage)
      ∧ ((s.AppsEnsureRepo app image.Repo w.store).1 ≠ none →
          rest = []
          ∧ (DeployImageToApp s ctx app image out w).2.store
              = (s.AppsEnsureRepo app image.Repo w.store).2
          ∧ (DeployImageToApp s ctx app image out w).1
              = (none, (s.AppsEnsureRepo app image.Repo w.store).1)) := by
    intro app w
    rcases DeployImageToApp_invocations s ctx app image out w with ⟨e, st₀, h₀, h, hn⟩
      | ⟨st₀, h₀, h, hn⟩
    · refine ⟨[], ?_, by simp, ?_⟩
      · rw [hn, h₀]
      · intro _
        rw [h, h₀]
        exact ⟨rfl, rfl, rfl⟩
    · refine ⟨newInvocations
          { store := st₀, trace := w.trace ++ [⟨.AppsEnsureRepo app image.Repo, none⟩] }
          (DeploymentsDo s ctx { App := app, Image := image, EventCh := out }
            { store := st₀,
              trace := w.trace ++ [⟨.AppsEnsureRepo app image.Repo, none⟩] }).2,
        ?_, pipelineRun_stage_ge (DeploymentsDo_pipeline s ctx _ _), ?_⟩
      · rw [hn, h₀]
      · intro hne
        rw [h₀] at hne
        exact absurd rfl hne
  refine ⟨key app w, ?_⟩
  intro a st hfind
  rcases DeployImage_invocations s ctx image out w with ⟨e, st', h₀, h, hn⟩
    | ⟨app', st', h₀, h, hn⟩
  · rw [hfind] at h₀
    simp at h₀
  · rw [hfind] at h₀
    simp only [Prod.mk.injEq, Except.ok.injEq] at h₀
    obtain ⟨rfl, rfl⟩ := h₀
    obtain ⟨rest, hr, hstage, hfailed⟩ := key a
      { store := st, trace := w.trace ++ [⟨.AppsFindOrCreateByRepo image.Repo, none⟩] }
    refine ⟨rest, ?_, hstage, ?_⟩
    · rw [hn, hr]
    · intro hne
      rw [h]
      exact hfailed hne

/-- C5 at a deploy to an application that does not exist, on which the sample `AppsEnsureRepo`
fails. -/
theorem C5_ensure_repo_first_witness :
    newInvocations emptyWorld
        (DeployImageToApp (sampleServices (ledgerCreate acceptAll)) ⟨false⟩ acmeApp acmeImage
          ⟨0⟩ emptyWorld).2
      = [⟨.AppsEnsureRepo acmeApp "ejholmes/acme-inc", some GoError.RecordNotFound⟩] := by
  obtain ⟨rest, hr, _, hfailed⟩ := (C5_ensure_repo_first (sampleServices (ledgerCreate acceptAll))
    ⟨false⟩ acmeApp acmeImage ⟨0⟩ emptyWorld).1
  rw [hr, (hfailed (by decide)).1]
  rfl

/-- C6: target application resolution.  `DeployImageToApp` never calls
`AppsFindOrCreateByRepo`: once `AppsEnsureRepo` has succeeded it is `DeploymentsDo` for the app
it was given, so every release it hands to `ReleasesCreate` is a release of that app, and it
does hand one over when the config fetch and the slug build succeed.  `DeployImage` is
`DeployImageToApp` for the app that `AppsFindOrCreateByRepo(image.Repo)` returned, and the
store it leaves is one the collaborators lead to from the store of that resolution.  So, when
find-or-create-by-repo is idempotent, a `DeployImage` call whose repository was resolved to an
application and any `DeployImage` call with an image of the same `Repo` made in a store the
collaborators lead to from there (after the first call, or while it is still running) hand
`ReleasesCreate` releases of that same application. -/
theorem C6_target_application (s : Services) :
    (∀ ctx app image out w,
      (∀ inv ∈ newInvocations w (DeployImageToApp s ctx app image out w).2,
        inv.call.stage ≠ 0)
      ∧ (∀ cr ∈ releasesCreateCalls
            (newInvocations w (DeployImageToApp s ctx app image out w).2),
          cr.2.App = app))
    ∧ (∀ ctx app image out w st₀,
        s.AppsEnsureRepo app image.Repo w.store = (none, st₀) →
        DeployImageToApp s ctx app image out w
          = DeploymentsDo s ctx { App := app, Image := image, EventCh := out }
              { store := st₀,
                trace := w.trace ++ [⟨.AppsEnsureRepo app image.Repo, none⟩] })
    ∧ (∀ ctx app image out w st₀ c st₁ sl st₂,
        s.AppsEnsureRepo app image.Repo w.store = (none, st₀) →
        s.ConfigsCurrent app st₀ = (.ok c, st₁) →
        s.SlugsCreateByImage image out st₁ = (.ok sl, st₂) →
        releasesCreateCalls (newInvocations w (DeployImageToApp s ctx app image out w).2)
          = [(ctx, { App := app, Config := c, Slug := sl,
                     Description := "Deploy " ++ s.ImageString image,
                     Version := 0, Status := "" })]
        ∧ (DeployImageToApp s ctx app image out w).1
          = (s.ReleasesCreate ctx
              { App := app, Config := c, Slug := sl,
                Description := "Deploy " ++ s.ImageString image,
                Version := 0, Status := "" } st₂).1)
    ∧ (∀ ctx image out w a st,
        s.AppsFindOrCreateByRepo image.Repo w.store = (.ok a, st) →
        DeployImage s ctx image out w
          = DeployImageToApp s ctx a image out
              { store := st,
                trace := w.trace ++ [⟨.AppsFindOrCreateByRepo image.Repo, none⟩] })
    ∧ (∀ ctx image out w a st st₀ c st₁ sl st₂,
        s.AppsFindOrCreateByRepo image.Repo w.store = (.ok a, st) →
        s.AppsEnsureRepo a image.Repo st = (none, st₀) →
        s.ConfigsCurrent a st₀ = (.ok c, st₁) →
        s.SlugsCreateByImage image out st₁ = (.ok sl, st₂) →
        releasesCreateCalls (newInvocations w (DeployImage s ctx image out w).2)
          = [(ctx, { App := a, Config := c, Slug := sl,
                     Description := "Deploy " ++ s.ImageString image,
                     Version := 0, Status := "" })])
    ∧ (∀ ctx image out w a st,
        s.AppsFindOrCreateByRepo image.Repo w.store = (.ok a, st) →
        s.Reaches st (DeployImage s ctx image out w).2.store)
    ∧ (s.FindOrCreateIdempotent →
        ∀ ctx₁ ctx₂ image₁ image₂ out₁ out₂ w₁ w₂ a₁ t₁, image₁.Repo = image₂.Repo →
          s.AppsFindOrCreateByRepo image₁.Repo w₁.store = (.ok a₁, t₁) →
          s.Reaches t₁ w₂.store →
          (∀ cr₁ ∈ releasesCreateCalls
              (newInvocations w₁ (DeployImage s ctx₁ image₁ out₁ w₁).2), cr₁.2.App = a₁)
          ∧ (∀ cr₂ ∈ releasesCreateCalls
              (newInvocations w₂ (DeployImage s ctx₂ image₂ out₂ w₂).2), cr₂.2.App = a₁)) := by
  have hfind : ∀ ctx image out w a st,
      s.AppsFindOrCreateByRepo image.Repo w.store = (.ok a, st) →
      DeployImage s ctx image out w
        = DeployImageToApp s ctx a image out
            { store := st,
              trace := w.trace ++ [⟨.AppsFindOrCreateByRepo image.Repo, none⟩] } := by
    intro ctx image out w a st h₀
    simp [DeployImage, Services.callAppsFindOrCreateByRepo, h₀, World.record, errOf]
  refine ⟨?_, ?_, ?_, hfind, ?_, ?_, ?_⟩
  · intro ctx app image out w
    refine ⟨?_, fun cr hcr => (DeployImageToApp_create_calls s ctx app image out w cr hcr).2.1⟩
    intro inv hinv
    have := pipelineRun_stage_ge (DeployImageToApp_pipeline s ctx app image out w) inv hinv
    omega
  · intro ctx app image out w st₀ h₀
    simp [DeployImageToApp, Services.callAppsEnsureRepo, h₀, World.record]
  · intro ctx app image out w st₀ c st₁ sl st₂ h₀ h₁ h₂
    simp [DeployImageToApp, DeploymentsDo, Services.callAppsEnsureRepo,
      Services.callConfigsCurrent, Services.callSlugsCreateByImage,
      Services.callReleasesCreate, h₀, h₁, h₂, World.record, errOf, newInvocations,
      releasesCreateCalls]
  · intro ctx image out w a st st₀ c st₁ sl st₂ h h₀ h₁ h₂
    simp [DeployImage, DeployImageToApp, DeploymentsDo, Services.callAppsFindOrCreateByRepo,
      Services.callAppsEnsureRepo, Services.callConfigsCurrent,
      Services.callSlugsCreateByImage, Services.callReleasesCreate, h, h₀, h₁, h₂,
      World.record, errOf, newInvocations, releasesCreateCalls]
  · intro ctx image out w a st h₀
    rw [hfind ctx image out w a st h₀]
    exact DeployImageToApp_reaches s ctx a image out
      { store := st, trace := w.trace ++ [⟨.AppsFindOrCreateByRepo image.Repo, none⟩] }
  · intro hidem ctx₁ ctx₂ image₁ image₂ out₁ out₂ w₁ w₂ a₁ t₁ hrepo hfst hreach
    refine ⟨?_, ?_⟩
    · intro cr₁ h₁
      obtain ⟨_, _, t, e₁⟩ := DeployImage_create_calls s ctx₁ image₁ out₁ w₁ cr₁ h₁
      rw [hfst] at e₁
      simp only [Prod.mk.injEq, Except.ok.injEq] at e₁
      exact e₁.1.symm
    · intro cr₂ h₂
      obtain ⟨_, _, t₂, e₂⟩ := DeployImage_create_calls s ctx₂ image₂ out₂ w₂ cr₂ h₂
      rw [← hrepo] at e₂
      exact hidem image₁.Repo w₁.store a₁ t₁ hfst w₂.store hreach cr₂.2.App t₂ e₂

/-- C6 at a deploy of the test image through the sample services, followed in the world it
left by the deploy of another image of the same repository. -/
theorem C6_target_application_witness :
    (sampleServices (ledgerCreate acceptAll)).FindOrCreateIdempotent
    ∧ DeployImage (sampleServices (ledgerCreate acceptAll)) ⟨false⟩ acmeImage ⟨0⟩ emptyWorld
      = DeployImageToApp (sampleServices (ledgerCreate acceptAll)) ⟨false⟩ acmeApp acmeImage ⟨0⟩
          { store := { emptyStore with apps := [(acmeApp, none)] },
            trace := [⟨.AppsFindOrCreateByRepo "ejholmes/acme-inc", none⟩] }
    ∧ releasesCreateCalls (newInvocations emptyWorld
        (DeployImage (sampleServices (ledgerCreate acceptAll)) ⟨false⟩ acmeImage ⟨0⟩
          emptyWorld).2)
      = [(⟨false⟩, { App := acmeApp, Config := { ID := "", Vars := [] },
                     Slug := { ID := "ejholmes/acme-inc:ec238137", Image := acmeImage },
                     Description := "Deploy ejholmes/acme-inc:ec238137",
                     Version := 0, Status := "" })]
    ∧ (∀ cr₂ ∈ releasesCreateCalls (newInvocations
            (DeployImage (sampleServices (ledgerCreate acceptAll)) ⟨false⟩ acmeImage ⟨0⟩
              emptyWorld).2
            (DeployImage (sampleServices (ledgerCreate acceptAll)) ⟨false⟩
              { Repo := "ejholmes/acme-inc", ID := "0b5d1c5a" } ⟨1⟩
              (DeployImage (sampleServices (ledgerCreate acceptAll)) ⟨false⟩ acmeImage ⟨0⟩
                emptyWorld).2).2),
          cr₂.2.App = acmeApp) :=
  ⟨sampleServices_findOrCreateIdempotent _,
   (C6_target_application (sampleServices (ledgerCreate acceptAll))).2.2.2.1 ⟨false⟩ acmeImage
     ⟨0⟩ emptyWorld acmeApp { emptyStore with apps := [(acmeApp, none)] } rfl,
   (C6_target_application (sampleServices (ledgerCreate acceptAll))).2.2.2.2.1 ⟨false⟩ acmeImage
     ⟨0⟩ emptyWorld acmeApp { emptyStore with apps := [(acmeApp, none)] }
     { emptyStore with apps := [(acmeApp, some "ejholmes/acme-inc")] }
     { ID := "", Vars := [] }
     { emptyStore with apps := [(acmeApp, some "ejholmes/acme-inc")] }
     { ID := "ejholmes/acme-inc:ec238137", Image := acmeImage }
     { emptyStore with apps := [(acmeApp, some "ejholmes/acme-inc")],
                       slugs := [{ ID := "ejholmes/acme-inc:ec238137", Image := acmeImage }] }
     rfl rfl rfl rfl,
   ((C6_target_application (sampleServices (ledgerCreate acceptAll))).2.2.2.2.2.2
     (sampleServices_findOrCreateIdempotent _) ⟨false⟩ ⟨false⟩ acmeImage
     { Repo := "ejholmes/acme-inc", ID := "0b5d1c5a" } ⟨0⟩ ⟨1⟩ emptyWorld
     (DeployImage (sampleServices (ledgerCreate acceptAll)) ⟨false⟩ acmeImage ⟨0⟩
       emptyWorld).2 acmeApp { emptyStore with apps := [(acmeApp, none)] } rfl rfl
     ((C6_target_application (sampleServices (ledgerCreate acceptAll))).2.2.2.2.2.1 ⟨false⟩
       acmeImage ⟨0⟩ emptyWorld acmeApp { emptyStore with apps := [(acmeApp, none)] }
       rfl)).2⟩

/-- C4, refuted as stated: a `DeploymentsDo` whose slug build succeeds and whose
`ReleasesCreate` fails returns the error and leaves the slug that `SlugsCreateByImage`
persisted. -/
theorem C4_slug_left_behind :
    (DeploymentsDo (sampleServices failingCreate) ⟨false⟩ ⟨acmeApp, acmeImage, ⟨0⟩⟩
        emptyWorld).1
      = (none, some (GoError.other "release creation failed"))
    ∧ emptyWorld.store.slugs = []
    ∧ (DeploymentsDo (sampleServices failingCreate) ⟨false⟩ ⟨acmeApp, acmeImage, ⟨0⟩⟩
        emptyWorld).2.store.slugs
      = [{ ID := "ejholmes/acme-inc:ec238137", Image := acmeImage }]
    ∧ (DeploymentsDo (sampleServices failingCreate) ⟨false⟩ ⟨acmeApp, acmeImage, ⟨0⟩⟩
        emptyWorld).2.store.records ≠ emptyWorld.store.records := by
  decide

/-- C4, amended: the deployer writes and undoes nothing itself, so a deploy that returns an
error leaves the records its collaborators left.  When the collaborators that run before
`ReleasesCreate` write no Config, Slug or Release record except for a successful slug build, a
deploy that fails before `ReleasesCreate` leaves the Config, Slug and Release records as they
were, and a deploy that fails in `ReleasesCreate` leaves the store `ReleasesCreate` left,
starting from the store of the successful `SlugsCreateByImage`. -/
theorem C4_failure_records (s : Services) (hs : s.FailuresWriteNoRecord) (req : DeployRequest)
    (w : World) (herr : (req.run s w).1.2 ≠ none) :
    (releasesCreateCalls (newInvocations w (req.run s w).2) = []
      ∧ (req.run s w).2.store.records = w.store.records)
    ∨ (∃ cx r image ch st₁ st₂,
        releasesCreateCalls (newInvocations w (req.run s w).2) = [(cx, r)]
        ∧ st₁.records = w.store.records
        ∧ s.SlugsCreateByImage image ch st₁ = (.ok r.Slug, st₂)
        ∧ (s.ReleasesCreate cx r st₂).1.2 ≠ none
        ∧ (req.run s w).2.store = (s.ReleasesCreate cx r st₂).2) := by
  cases req with
  | DeploymentsDo ctx opts => exact DeploymentsDo_failure_records s hs ctx opts w _ rfl herr
  | DeployImageToApp ctx app image out =>
    exact DeployImageToApp_failure_records s hs ctx app image out w _ rfl herr
  | DeployImage ctx image out => exact DeployImage_failure_records s hs ctx image out w _ rfl herr

/-- C4, amended, at the deploy of an image the sample slug builder rejects, and at a deploy
whose release creation fails. -/
theorem C4_failure_records_witness :
    (DeployRequest.run (sampleServices failingCreate)
        (.DeployImage ⟨false⟩ { Repo := "ejholmes/acme-inc", ID := "" } ⟨0⟩)
        emptyWorld).1.2 ≠ none
    ∧ ((releasesCreateCalls (newInvocations emptyWorld
          (DeployRequest.run (sampleServices failingCreate)
            (.DeployImage ⟨false⟩ { Repo := "ejholmes/acme-inc", ID := "" } ⟨0⟩)
            emptyWorld).2) = []
        ∧ (DeployRequest.run (sampleServices failingCreate)
            (.DeployImage ⟨false⟩ { Repo := "ejholmes/acme-inc", ID := "" } ⟨0⟩)
            emptyWorld).2.store.records = emptyWorld.store.records)
      ∨ (∃ cx r image ch st₁ st₂,
          releasesCreateCalls (newInvocations emptyWorld
            (DeployRequest.run (sampleServices failingCreate)
              (.DeployImage ⟨false⟩ { Repo := "ejholmes/acme-inc", ID := "" } ⟨0⟩)
              emptyWorld).2) = [(cx, r)]
          ∧ st₁.records = emptyWorld.store.records
          ∧ (sampleServices failingCreate).SlugsCreateByImage image ch st₁ = (.ok r.Slug, st₂)
          ∧ ((sampleServices failingCreate).ReleasesCreate cx r st₂).1.2 ≠ none
          ∧ (DeployRequest.run (sampleServices failingCreate)
              (.DeployImage ⟨false⟩ { Repo := "ejholmes/acme-inc", ID := "" } ⟨0⟩)
              emptyWorld).2.store
            = ((sampleServices failingCreate).ReleasesCreate cx r st₂).2)) :=
  ⟨by decide,
   C4_failure_records (sampleServices failingCreate) (sampleServices_failuresWriteNoRecord _)
     (.DeployImage ⟨false⟩ { Repo := "ejholmes/acme-inc", ID := "" } ⟨0⟩) emptyWorld
     (by decide)⟩

/-- C7, refuted as stated: a `DeploymentsDo` entered with a context that is already cancelled
still runs the slug build, which persists its slug, and still calls `ReleasesCreate`. -/
theorem C7_cancelled_deploy_calls_create :
    (Context.mk true).cancelled = true
    ∧ (newInvocations emptyWorld
        (DeploymentsDo (sampleServices cancellableCreate) ⟨true⟩ ⟨acmeApp, acmeImage, ⟨0⟩⟩
          emptyWorld).2).map (fun inv => inv.call.stage) = [2, 3, 4]
    ∧ releasesCreateCalls (newInvocations emptyWorld
        (DeploymentsDo (sampleServices cancellableCreate) ⟨true⟩ ⟨acmeApp, acmeImage, ⟨0⟩⟩
          emptyWorld).2)
      = [(⟨true⟩, { App := acmeApp, Config := { ID := "", Vars := [] },
                    Slug := { ID := "ejholmes/acme-inc:ec238137", Image := acmeImage },
                    Description := "Deploy ejholmes/acme-inc:ec238137",
                    Version := 0, Status := "" })]
    ∧ (DeploymentsDo (sampleServices cancellableCreate) ⟨true⟩ ⟨acmeApp, acmeImage, ⟨0⟩⟩
        emptyWorld).2.store.slugs
      = [{ ID := "ejholmes/acme-inc:ec238137", Image := acmeImage }] := by
  decide

/-- C7, amended: the deployer does not inspect the context.  Whatever the context,
`DeploymentsDo` fetches the config and builds the slug, and when both succeed it calls
`ReleasesCreate` with the context it was given and returns what `ReleasesCreate` returns.  So a
deploy whose context is already cancelled on entry returns an error and a nil release, and
creates no release, provided `ReleasesCreate` honours the cancellation and is the only writer
of the release table. -/
theorem C7_cancellation_forwarded (s : Services) :
    (∀ ctx opts w c st₁ sl st₂,
      s.ConfigsCurrent opts.App w.store = (.ok c, st₁) →
      s.SlugsCreateByImage opts.Image opts.EventCh st₁ = (.ok sl, st₂) →
      newInvocations w (DeploymentsDo s ctx opts w).2
        = [⟨.ConfigsCurrent opts.App, none⟩,
           ⟨.SlugsCreateByImage opts.Image opts.EventCh, none⟩,
           ⟨.ReleasesCreate ctx (deployRelease s opts c sl),
            (s.ReleasesCreate ctx (deployRelease s opts c sl) st₂).1.2⟩]
      ∧ (DeploymentsDo s ctx opts w).1
        = (s.ReleasesCreate ctx (deployRelease s opts c sl) st₂).1)
    ∧ (∀ ctx opts w, ∃ rest,
        newInvocations w (DeploymentsDo s ctx opts w).2
          = ⟨.ConfigsCurrent opts.App, errOf (s.ConfigsCurrent opts.App w.store).1⟩ :: rest)
    ∧ (s.CreateHonoursCancellation →
        ∀ (req : DeployRequest) (w : World), req.ctx.cancelled = true →
          (req.run s w).1.1 = none
          ∧ (req.run s w).1.2 ≠ none
          ∧ (s.ReleasesWrittenByCreateOnly →
              (req.run s w).2.store.releases = w.store.releases)) := by
  refine ⟨?_, ?_, ?_⟩
  · intro ctx opts w c st₁ sl st₂ hc hs
    simp [DeploymentsDo, Services.callConfigsCurrent, Services.callSlugsCreateByImage,
      Services.callReleasesCreate, hc, hs, World.record, errOf, newInvocations, deployRelease]
  · intro ctx opts w
    rcases DeploymentsDo_cases s ctx opts w with ⟨e, st₁, h₁, h⟩ | ⟨c, st₁, e, st₂, h₁, h₂, h⟩
      | ⟨c, st₁, sl, st₂, h₁, h₂, h⟩
    all_goals
      rw [h, h₁]
      simp [newInvocations, errOf]
  · intro hh req w hc
    cases req with
    | DeploymentsDo ctx opts => exact DeploymentsDo_cancelled s hh ctx hc opts w _ rfl
    | DeployImageToApp ctx app image out =>
      exact DeployImageToApp_cancelled s hh ctx hc app image out w _ rfl
    | DeployImage ctx image out => exact DeployImage_cancelled s hh ctx hc image out w _ rfl

/-- C7, amended, at a deploy with a cancelled context through a `ReleasesCreate` that honours
cancellation. -/
theorem C7_cancellation_forwarded_witness :
    (sampleServices cancellableCreate).CreateHonoursCancellation
    ∧ (DeployImage (sampleServices cancellableCreate) ⟨true⟩ acmeImage ⟨0⟩ emptyWorld).1.2
        ≠ none
    ∧ (DeployImage (sampleServices cancellableCreate) ⟨true⟩ acmeImage ⟨0⟩
        emptyWorld).2.store.releases = [] :=
  ⟨cancellableCreate_honours,
   ((C7_cancellation_forwarded (sampleServices cancellableCreate)).2.2 cancellableCreate_honours
      (.DeployImage ⟨true⟩ acmeImage ⟨0⟩) emptyWorld rfl).2.1,
   ((C7_cancellation_forwarded (sampleServices cancellableCreate)).2.2 cancellableCreate_honours
      (.DeployImage ⟨true⟩ acmeImage ⟨0⟩) emptyWorld rfl).2.2
      (sampleServices_releasesWrittenByCreateOnly _)⟩

/-- C8, refuted as stated on the ledger of the spec: a release whose scheduler handoff fails
is retained with its version, so the deploy fails and the first successful deploy of the
application yields version 2, not 1. -/
theorem C8_failed_release_takes_version :
    (DeployImage (sampleServices (ledgerCreate rejectFirst)) ⟨false⟩ acmeImage ⟨0⟩
        emptyWorld).1
      = (none, some (GoError.other "scheduler rejected the release"))
    ∧ (DeployImage (sampleServices (ledgerCreate rejectFirst)) ⟨false⟩ acmeImage ⟨0⟩
        (DeployImage (sampleServices (ledgerCreate rejectFirst)) ⟨false⟩ acmeImage ⟨0⟩
          emptyWorld).2).1
      = (some { App := acmeApp, Config := { ID := "", Vars := [] },
                Slug := { ID := "ejholmes/acme-inc:ec238137", Image := acmeImage },
                Description := "Deploy ejholmes/acme-inc:ec238137",
                Version := 2, Status := "success" }, none)
    ∧ (versionsOf acmeApp
        ((runDeploys (sampleServices (ledgerCreate rejectFirst))
          [.DeployImage ⟨false⟩ acmeImage ⟨0⟩, .DeployImage ⟨false⟩ acmeImage ⟨0⟩]
          emptyWorld).store.releases.filter (fun r => r.Status = StatusSuccess))) = [2] := by
  decide

/-- C8, amended, on the ledger of the spec.  `ReleasesCreate` creates no release for a context
that is already cancelled; otherwise it gives the release the version 1 + the highest existing
version of its application (0 if none) and retains it, with status `success` and returned when
the scheduler accepts it, with status `failed` and only the error returned when the scheduler
rejects it.  A deploy is the sequence of its collaborator calls, and deploys run one after the
other are one schedule among all interleavings of those calls.  After deploys run under any
schedule, sequential or concurrent, from a store without releases: the versions of the
releases of every application, in the order of creation, are exactly 1, ..., N, where N is the
number of `ReleasesCreate` calls made for it with a live context; every release has status
`success` or `failed`; the deployer never chooses a version (it hands `ReleasesCreate` releases
with `Version` 0); every release a deploy has returned is in the ledger with status `success`;
and the version of a release is 1 + the number of successful releases + the number of failed
releases created before it for its application, so the k-th successful deploy of an application
yields version k plus the number of its releases that failed before. -/
theorem C8_versions_gapless (s : Services)
    (scheduler : Context → Release → List (App × String × Nat) → Option GoError)
    (hcreate : s.ReleasesCreate = ledgerCreate scheduler) (hf : s.ReleasesWrittenByCreateOnly) :
    (∀ ctx r st,
      (ctx.cancelled = true → s.ReleasesCreate ctx r st = ((none, some ErrCanceled), st))
      ∧ (ctx.cancelled = false →
          scheduler ctx (nextRelease r st StatusPending) (ensureFormation r.App st.formations)
            = none →
          s.ReleasesCreate ctx r st
            = ((some (nextRelease r st StatusSuccess), none),
               st.retain (nextRelease r st StatusSuccess)))
      ∧ (∀ e, ctx.cancelled = false →
          scheduler ctx (nextRelease r st StatusPending) (ensureFormation r.App st.formations)
            = some e →
          s.ReleasesCreate ctx r st
            = ((none, some e), st.retain (nextRelease r st StatusFailed)))
      ∧ (∀ status, (nextRelease r st status).App = r.App
          ∧ (nextRelease r st status).Version = 1 + highestVersion r.App st.releases
          ∧ (nextRelease r st status).Status = status
          ∧ (st.retain (nextRelease r st status)).releases
              = st.releases ++ [nextRelease r st status]))
    ∧ (∀ (req : DeployRequest) (w : World),
        Task.steps s 5 req.task w = (.returned (req.run s w).1, (req.run s w).2))
    ∧ (∀ (reqs : List DeployRequest) (w : World),
        runSchedule s (sequentialSchedule 0 reqs.length) (reqs.map DeployRequest.task) w
          = ((deployResults s reqs w).map Task.returned, runDeploys s reqs w))
    ∧ (∀ (reqs : List DeployRequest) (schedule : List Nat) (w : World),
        w.store.releases = [] →
        (∀ a, versionsOf a
            (runSchedule s schedule (reqs.map DeployRequest.task) w).2.store.releases
          = List.range' 1 (createCount a (newInvocations w
              (runSchedule s schedule (reqs.map DeployRequest.task) w).2)))
        ∧ (∀ r ∈ (runSchedule s schedule (reqs.map DeployRequest.task) w).2.store.releases,
            r.Status = StatusSuccess ∨ r.Status = StatusFailed)
        ∧ (∀ cr ∈ releasesCreateCalls (newInvocations w
              (runSchedule s schedule (reqs.map DeployRequest.task) w).2),
            cr.2.Version = 0)
        ∧ (∀ res, Task.returned res
              ∈ (runSchedule s schedule (reqs.map DeployRequest.task) w).1 →
            ∀ rel, res.1 = some rel →
              res.2 = none
              ∧ rel ∈ (runSchedule s schedule (reqs.map DeployRequest.task) w).2.store.releases
              ∧ rel.Status = StatusSuccess)
        ∧ (∀ a pre rel post,
            (runSchedule s schedule (reqs.map DeployRequest.task) w).2.store.releases.filter
                (fun r => r.App = a) = pre ++ rel :: post →
            rel.Version = 1 + (pre.filter (fun r => r.Status = StatusSuccess)).length
              + (pre.filter (fun r => r.Status = StatusFailed)).length)) := by
  refine ⟨?_, steps_task s, ?_, ?_⟩
  · intro ctx r st
    rw [hcreate]
    refine ⟨?_, ?_, ?_, fun status => ⟨rfl, rfl, rfl, rfl⟩⟩
    · intro hc
      simp [ledgerCreate, hc]
    · intro hc hs
      simp [ledgerCreate, hc, hs]
    · intro e hc hs
      simp [ledgerCreate, hc, hs]
  · intro reqs w
    simpa using runSchedule_sequential s reqs [] w
  · intro reqs schedule w h₀
    have h := runSchedule_inv s scheduler hcreate hf w schedule
      (reqs.map DeployRequest.task) w ⟨ledgerInv_init w h₀, resultsInv_init reqs w⟩
    exact ⟨h.1.versions, h.1.statuses, h.1.unversioned, h.2,
      fun a pre rel post hsplit => ledgerInv_position w _ h.1 a pre rel post hsplit⟩

/-- C8, amended, at two deploys of the test image that run concurrently, their collaborator
calls alternating, of which the scheduler rejects the release that gets version 1. -/
theorem C8_versions_gapless_witness :
    versionsOf acmeApp
        (runSchedule (sampleServices (ledgerCreate rejectFirst)) [0, 1, 0, 1, 0, 1, 0, 1, 0, 1]
          [.DeployImage ⟨false⟩ acmeImage ⟨0⟩, .DeployImage ⟨false⟩ acmeImage ⟨1⟩]
          emptyWorld).2.store.releases
      = List.range' 1 (createCount acmeApp (newInvocations emptyWorld
          (runSchedule (sampleServices (ledgerCreate rejectFirst))
            [0, 1, 0, 1, 0, 1, 0, 1, 0, 1]
            [.DeployImage ⟨false⟩ acmeImage ⟨0⟩, .DeployImage ⟨false⟩ acmeImage ⟨1⟩]
            emptyWorld).2))
    ∧ createCount acmeApp (newInvocations emptyWorld
          (runSchedule (sampleServices (ledgerCreate rejectFirst))
            [0, 1, 0, 1, 0, 1, 0, 1, 0, 1]
            [.DeployImage ⟨false⟩ acmeImage ⟨0⟩, .DeployImage ⟨false⟩ acmeImage ⟨1⟩]
            emptyWorld).2) = 2
    ∧ (runSchedule (sampleServices (ledgerCreate rejectFirst)) [0, 1, 0, 1, 0, 1, 0, 1, 0, 1]
          [.DeployImage ⟨false⟩ acmeImage ⟨0⟩, .DeployImage ⟨false⟩ acmeImage ⟨1⟩]
          emptyWorld).1
      = [.returned (none, some (GoError.other "scheduler rejected the release")),
         .returned (some { App := acmeApp, Config := { ID := "", Vars := [] },
                           Slug := { ID := "ejholmes/acme-inc:ec238137", Image := acmeImage },
                           Description := "Deploy ejholmes/acme-inc:ec238137",
                           Version := 2, Status := "success" }, none)] :=
  ⟨((C8_versions_gapless (sampleServices (ledgerCreate rejectFirst)) rejectFirst rfl
      (sampleServices_releasesWrittenByCreateOnly _)).2.2.2
      [.DeployImage ⟨false⟩ acmeImage ⟨0⟩, .DeployImage ⟨false⟩ acmeImage ⟨1⟩]
      [0, 1, 0, 1, 0, 1, 0, 1, 0, 1] emptyWorld rfl).1 acmeApp,
   by decide, by decide⟩

end Empire

/-- C9: `newError` maps by kind, never by message text: `gorm.RecordNotFound` gives `ErrNotFound`
(404, "not_found"), every `*empire.ValidationError` gives `ErrBadRequest` (400, "bad_request"),
every `*empire.MessageRequiredError` gives `ErrMessageRequired` (400, "message_required"), and
the three results are pairwise distinct; an error of another type is mapped to none of the
three, whatever its text. -/
theorem C9_newError_by_kind (h : String) :
    Heroku.newError h Heroku.GoError.RecordNotFound = some Heroku.ErrNotFound
    ∧ Heroku.ErrNotFound.Status = 404 ∧ Heroku.ErrNotFound.ID = "not_found"
    ∧ (∀ msg : String,
        Heroku.newError h (Heroku.GoError.ValidationError msg) = some Heroku.ErrBadRequest)
    ∧ Heroku.ErrBadRequest.Status = 400 ∧ Heroku.ErrBadRequest.ID = "bad_request"
    ∧ (∀ msg : String,
        Heroku.newError h (Heroku.GoError.MessageRequiredError msg)
          = some (Heroku.ErrMessageRequired h))
    ∧ (Heroku.ErrMessageRequired h).Status = 400
    ∧ (Heroku.ErrMessageRequired h).ID = "message_required"
    ∧ Heroku.ErrNotFound ≠ Heroku.ErrBadRequest
    ∧ Heroku.ErrNotFound ≠ Heroku.ErrMessageRequired h
    ∧ Heroku.ErrBadRequest ≠ Heroku.ErrMessageRequired h
    ∧ (∀ m₁ m₂ : String,
        Heroku.newError h Heroku.GoError.RecordNotFound
          ≠ Heroku.newError h (Heroku.GoError.ValidationError m₁)
        ∧ Heroku.newError h Heroku.GoError.RecordNotFound
          ≠ Heroku.newError h (Heroku.GoError.MessageRequiredError m₂)
        ∧ Heroku.newError h (Heroku.GoError.ValidationError m₁)
          ≠ Heroku.newError h (Heroku.GoError.MessageRequiredError m₂))
    ∧ (∀ msg : String,
        Heroku.newError h (Heroku.GoError.other msg) ≠ some Heroku.ErrNotFound
        ∧ Heroku.newError h (Heroku.GoError.other msg) ≠ some Heroku.ErrBadRequest
        ∧ Heroku.newError h (Heroku.GoError.other msg)
            ≠ some (Heroku.ErrMessageRequired h)) := by
  have hid : ∀ a b : Heroku.ErrorResource, a.ID ≠ b.ID → some a ≠ some b := by
    intro a b hne hab
    exact hne (by rw [Option.some.inj hab])
  have hval : ∀ a b : Heroku.ErrorResource, some a ≠ some b → a ≠ b := by
    intro a b hne hab
    exact hne (by rw [hab])
  have h1 : some Heroku.ErrNotFound ≠ some Heroku.ErrBadRequest := hid _ _ (by decide)
  have h2 : some Heroku.ErrNotFound ≠ some (Heroku.ErrMessageRequired h) :=
    hid _ _ (show "not_found" ≠ "message_required" by decide)
  have h3 : some Heroku.ErrBadRequest ≠ some (Heroku.ErrMessageRequired h) :=
    hid _ _ (show "bad_request" ≠ "message_required" by decide)
  refine ⟨rfl, rfl, rfl, fun _ => rfl, rfl, rfl, fun _ => rfl, rfl, rfl,
    hval _ _ h1, hval _ _ h2, hval _ _ h3, ?_, ?_⟩
  · intro m₁ m₂
    exact ⟨h1, h2, h3⟩
  · intro msg
    exact ⟨hid _ _ (show "" ≠ "not_found" by decide),
      hid _ _ (show "" ≠ "bad_request" by decide),
      hid _ _ (show "" ≠ "message_required" by decide)⟩

/-- C10, refuted as stated: a non-nil error that holds a nil `*ErrorResource` matches the case
`*ErrorResource` of the type switch and is returned as it is, so `newError` returns a nil
pointer for a non-nil error. -/
theorem C10_nil_pointer_returned :
    Heroku.newError "Commit-Message" (Heroku.GoError.ErrorResource none) = none := by
  decide

/-- C10, amended: for every non-nil error `e` that does not hold a nil `*ErrorResource`,
`newError(e)` is non-nil; an `*ErrorResource`, nil or not, is returned unchanged, so `newError`
is idempotent; and an error of none of the four recognised kinds gives a resource with
`Message = e.Error()`, `Status` 0, empty `ID` and empty `URL`, whose `Error()` is `e.Error()`. -/
theorem C10_newError_mapped_and_default (h : String) :
    (∀ e : Heroku.GoError, e ≠ Heroku.GoError.ErrorResource none →
        Heroku.newError h e ≠ none)
    ∧ (∀ p : Option Heroku.ErrorResource,
        Heroku.newError h (Heroku.GoError.ErrorResource p) = p)
    ∧ (∀ e : Heroku.GoError,
        Heroku.newError h (Heroku.GoError.ErrorResource (Heroku.newError h e))
          = Heroku.newError h e)
    ∧ (∀ msg : String,
        (Heroku.GoError.other msg).Error = some msg
        ∧ Heroku.newError h (Heroku.GoError.other msg)
            = some { Status := 0, ID := "", Message := msg, URL := "" }
        ∧ (Heroku.newError h (Heroku.GoError.other msg)).map Heroku.ErrorResource.Error
            = (Heroku.GoError.other msg).Error)
    ∧ (∀ e : Heroku.GoError,
        e ≠ Heroku.GoError.RecordNotFound →
        (∀ p, e ≠ Heroku.GoError.ErrorResource p) →
        (∀ m, e ≠ Heroku.GoError.MessageRequiredError m) →
        (∀ m, e ≠ Heroku.GoError.ValidationError m) →
        ∃ msg, e.Error = some msg
          ∧ Heroku.newError h e = some { Status := 0, ID := "", Message := msg, URL := "" }
          ∧ (Heroku.newError h e).map Heroku.ErrorResource.Error = e.Error) := by
  refine ⟨?_, fun _ => rfl, fun _ => rfl, fun _ => ⟨rfl, rfl, rfl⟩, ?_⟩
  · intro e he
    cases e with
    | RecordNotFound => simp [Heroku.newError]
    | ErrorResource p =>
      cases p with
      | none => exact absurd rfl he
      | some r => simp [Heroku.newError]
    | MessageRequiredError m => simp [Heroku.newError]
    | ValidationError m => simp [Heroku.newError]
    | other m => simp [Heroku.newError, Heroku.GoError.Error]
  · intro e h1 h2 h3 h4
    cases e with
    | RecordNotFound => exact absurd rfl h1
    | ErrorResource p => exact absurd rfl (h2 p)
    | MessageRequiredError m => exact absurd rfl (h3 m)
    | ValidationError m => exact absurd rfl (h4 m)
    | other m => exact ⟨m, rfl, rfl, rfl⟩

/-- C10, amended, at an already-mapped error and at a concrete unrecognised error. -/
theorem C10_newError_mapped_and_default_witness :
    Heroku.newError "Commit-Message" (Heroku.GoError.ErrorResource (some Heroku.ErrNotFound))
        = some Heroku.ErrNotFound
    ∧ Heroku.newError "Commit-Message" (Heroku.GoError.other "boom") ≠ none
    ∧ Heroku.newError "Commit-Message" (Heroku.GoError.other "boom")
        = some { Status := 0, ID := "", Message := "boom", URL := "" } :=
  ⟨(C10_newError_mapped_and_default "Commit-Message").2.1 (some Heroku.ErrNotFound),
   (C10_newError_mapped_and_default "Commit-Message").1 (Heroku.GoError.other "boom")
     (by decide),
   ((C10_newError_mapped_and_default "Commit-Message").2.2.2.1 "boom").2.1⟩
